import Mathlib

/-!
Verification of the publish state machine of the `mqtt` client crate.

The definitions below are a shallow embedding of `src/client/publish.rs`:
the `State` struct, its `poll` and `new_connection` methods, and the data
they operate on.  `BTreeMap` and `BTreeSet` are modelled as lists sorted by
key; the `futures::sync::oneshot::Sender<()>` completion notifiers are
modelled as opaque numeric tokens and each act of calling `send(())` on one
is recorded in a `signalled` output list.  The `futures::sync::mpsc`
publish-request channel is modelled by passing the batch of requests the
channel would yield as an explicit argument to `poll`.  A Rust panic
(the `assert!(dup)` on line 68 of `publish.rs`) is modelled as a dedicated
error outcome.  The packet-identifier pool lives in `src/client/mod.rs`,
which is not among the provided sources, and is therefore modelled from the
specification (§4.1).
-/

namespace Mqtt

/-- Packet identifiers (`proto::PacketIdentifier`, a non-zero `u16`),
modelled as naturals. -/
abbrev PacketIdentifier := Nat

/-- Quality of service levels (`proto::QoS`). -/
inductive QoS
| atMostOnce
| atLeastOnce
| exactlyOnce
deriving DecidableEq

/-- The packet-identifier / dup / qos tag of a PUBLISH packet
(`proto::PacketIdentifierDupQoS`). -/
inductive PacketIdentifierDupQoS
| atMostOnce
| atLeastOnce (packet_identifier : PacketIdentifier) (dup : Bool)
| exactlyOnce (packet_identifier : PacketIdentifier) (dup : Bool)
deriving DecidableEq

/-- The MQTT packets that the publish state machine handles
(`proto::Packet`).  `other` stands for every remaining packet kind
(CONNECT, CONNACK, SUBSCRIBE, ..., which `State::poll` puts back into the
packet slot unchanged). -/
inductive Packet
| publish (packet_identifier_dup_qos : PacketIdentifierDupQoS)
    (retain : Bool) (topic_name : String) (payload : List Nat)
| pubAck (packet_identifier : PacketIdentifier)
| pubComp (packet_identifier : PacketIdentifier)
| pubRec (packet_identifier : PacketIdentifier)
| pubRel (packet_identifier : PacketIdentifier)
| other
deriving DecidableEq

/-- A message that can be published to the server (`Publication`). -/
structure Publication where
  topic_name : String
  qos : QoS
  retain : Bool
  payload : List Nat
deriving DecidableEq

/-- A message received from the server (`ReceivedPublication`). -/
structure ReceivedPublication where
  topic_name : String
  dup : Bool
  qos : QoS
  payload : List Nat
deriving DecidableEq

/-- A queued publish request (`PublishRequest`): the publication plus the
completion notifier (`futures::sync::oneshot::Sender<()>`), modelled as an
opaque token. -/
structure PublishRequest where
  publication : Publication
  ack_sender : Nat
deriving DecidableEq

/-- A value of the `waiting_to_be_acked` / `waiting_to_be_completed` maps:
the completion notifier together with the stored PUBLISH packet. -/
structure Entry where
  ack_sender : Nat
  packet : Packet
deriving DecidableEq

/-- Model of `std::collections::BTreeMap<PacketIdentifier, Entry>`:
an association list sorted strictly by key. -/
abbrev IdMap := List (PacketIdentifier × Entry)

/-- Model of `BTreeMap::get` / lookup: first binding of the key. -/
def mapLookup : IdMap → PacketIdentifier → Option Entry
  | [], _ => none
  | (k, v) :: rest, id => if id = k then some v else mapLookup rest id

/-- Model of `BTreeMap::remove` (without returning the value): drops the
first binding of the key. -/
def mapRemove : IdMap → PacketIdentifier → IdMap
  | [], _ => []
  | (k, v) :: rest, id => if id = k then rest else (k, v) :: mapRemove rest id

/-- Model of `BTreeMap::insert`: sorted insertion, replacing an existing
binding of the same key. -/
def mapInsert (id : PacketIdentifier) (e : Entry) : IdMap → IdMap
  | [] => [(id, e)]
  | (k, v) :: rest =>
    if id < k then (id, e) :: (k, v) :: rest
    else if id = k then (id, e) :: rest
    else (k, v) :: mapInsert id e rest

/-- Model of `BTreeMap::append`: every binding of the second map is moved
into the first, overwriting bindings with equal keys. -/
def mapAppend : IdMap → IdMap → IdMap
  | m, [] => m
  | m, (k, v) :: rest => mapAppend (mapInsert k v m) rest

/-- Model of `std::collections::BTreeSet<PacketIdentifier>`: a sorted
list. -/
abbrev IdSet := List PacketIdentifier

/-- Model of `BTreeSet::contains`. -/
def setContains : IdSet → PacketIdentifier → Bool
  | [], _ => false
  | k :: rest, id => if id = k then true else setContains rest id

/-- Model of `BTreeSet::insert`: sorted insertion without duplicates. -/
def setInsert (id : PacketIdentifier) : IdSet → IdSet
  | [] => [id]
  | k :: rest =>
    if id < k then id :: k :: rest
    else if id = k then k :: rest
    else k :: setInsert id rest

/-- Model of `BTreeSet::remove`. -/
def setRemove : IdSet → PacketIdentifier → IdSet
  | [], _ => []
  | k :: rest, id => if id = k then rest else k :: setRemove rest id

/-- Modelled from the spec: the packet-identifier pool (`PacketIdentifiers`
in `src/client/mod.rs`, not among the provided sources).  Per §4.1 it
maintains a bitset over [1, 65535] plus a cursor for the next search. -/
structure PacketIdentifiers where
  in_use : Nat → Bool
  cursor : Nat

/-- Modelled from the spec: the identifiers scanned by `reserve`, lowest
first starting at the cursor and wrapping once through [1, 65535]. -/
def reserveCandidates (cursor : Nat) : List Nat :=
  List.range' cursor (65536 - cursor) ++ List.range' 1 (cursor - 1)

/-- Modelled from the spec: `PacketIdentifiers::reserve` returns the lowest
free identifier at or after the cursor (wrapping once), marks it used and
advances the cursor; it fails with `ExhaustedPool` (here: `none`) when all
identifiers are in use. -/
def PacketIdentifiers.reserve (p : PacketIdentifiers) :
    Option (PacketIdentifier × PacketIdentifiers) :=
  match (reserveCandidates p.cursor).find? (fun id => !p.in_use id) with
  | some id => some (id, ⟨fun x => if x = id then true else p.in_use x, id + 1⟩)
  | none => none

/-- Modelled from the spec: `PacketIdentifiers::discard` marks the
identifier free again (idempotent within a session). -/
def PacketIdentifiers.discard (p : PacketIdentifiers) (id : PacketIdentifier) :
    PacketIdentifiers :=
  ⟨fun x => if x = id then false else p.in_use x, p.cursor⟩

/-- The freshly initialized pool: nothing in use, search starts at 1. -/
def initialPool : PacketIdentifiers := ⟨fun _ => false, 1⟩

/-- The publish state machine state (`publish::State`).  The mpsc channel
endpoints are not part of the model: the requests the channel would deliver
are passed to `poll` directly. -/
structure State where
  publish_requests_waiting_to_be_sent : List PublishRequest
  waiting_to_be_acked : IdMap
  waiting_to_be_released : IdSet
  waiting_to_be_completed : IdMap
deriving DecidableEq

/-- `State::default()`: everything empty. -/
def initialState : State := ⟨[], [], [], []⟩

/-- The ways a call to `State::poll` can fail: the `ExhaustedPool` error
surfaced from `PacketIdentifiers::reserve`, or the panic of the
`assert!(dup)` on a duplicate inbound ExactlyOnce PUBLISH whose dup flag
is false. -/
inductive PollError
| exhaustedPool
| assertFailed
deriving DecidableEq

/-- Result of the inbound-packet phase of `State::poll` (the
`match packet.take()` block). -/
structure InboundResult where
  packets : List Packet
  publication_received : Option ReceivedPublication
  signalled : List Nat
  state : State
  pool : PacketIdentifiers
  slot : Option Packet
  panicked : Bool

/-- The inbound-packet phase of `State::poll`, translated case by case from
the `match packet.take()` block of `publish.rs`. -/
def handleInbound (s : State) (pool : PacketIdentifiers) :
    Option Packet → InboundResult
  | some (.pubAck id) =>
    match mapLookup s.waiting_to_be_acked id with
    | some e =>
      { packets := [], publication_received := none, signalled := [e.ack_sender],
        state := { s with waiting_to_be_acked := mapRemove s.waiting_to_be_acked id },
        pool := pool.discard id, slot := none, panicked := false }
    | none =>
      { packets := [], publication_received := none, signalled := [],
        state := s, pool := pool, slot := none, panicked := false }
  | some (.pubComp id) =>
    match mapLookup s.waiting_to_be_completed id with
    | some e =>
      { packets := [], publication_received := none, signalled := [e.ack_sender],
        state := { s with waiting_to_be_completed := mapRemove s.waiting_to_be_completed id },
        pool := pool.discard id, slot := none, panicked := false }
    | none =>
      { packets := [], publication_received := none, signalled := [],
        state := s, pool := pool, slot := none, panicked := false }
  | some (.publish pidq retain topic payload) =>
    match pidq with
    | .atMostOnce =>
      { packets := [],
        publication_received := some ⟨topic, false, .atMostOnce, payload⟩,
        signalled := [], state := s, pool := pool, slot := none, panicked := false }
    | .atLeastOnce id dup =>
      { packets := [.pubAck id],
        publication_received := some ⟨topic, dup, .atLeastOnce, payload⟩,
        signalled := [], state := s, pool := pool, slot := none, panicked := false }
    | .exactlyOnce id dup =>
      if setContains s.waiting_to_be_released id then
        if dup then
          { packets := [.pubRec id], publication_received := none,
            signalled := [], state := s, pool := pool, slot := none, panicked := false }
        else
          -- the `assert!(dup)` fires: the whole call panics
          { packets := [], publication_received := none, signalled := [],
            state := s, pool := pool, slot := none, panicked := true }
      else
        { packets := [.pubRec id],
          publication_received := some ⟨topic, dup, .exactlyOnce, payload⟩,
          signalled := [],
          state := { s with waiting_to_be_released := setInsert id s.waiting_to_be_released },
          pool := pool, slot := none, panicked := false }
  | some (.pubRec id) =>
    match mapLookup s.waiting_to_be_acked id with
    | some e =>
      { packets := [.pubRel id], publication_received := none, signalled := [],
        state := { s with
          waiting_to_be_acked := mapRemove s.waiting_to_be_acked id,
          waiting_to_be_completed := mapInsert id e s.waiting_to_be_completed },
        pool := pool, slot := none, panicked := false }
    | none =>
      { packets := [.pubRel id], publication_received := none, signalled := [],
        state := s, pool := pool, slot := none, panicked := false }
  | some (.pubRel id) =>
    if setContains s.waiting_to_be_released id then
      { packets := [.pubComp id], publication_received := none, signalled := [],
        state := { s with waiting_to_be_released := setRemove s.waiting_to_be_released id },
        pool := pool.discard id, slot := none, panicked := false }
    else
      { packets := [.pubComp id], publication_received := none, signalled := [],
        state := s, pool := pool, slot := none, panicked := false }
  | pkt =>
    { packets := [], publication_received := none, signalled := [],
      state := s, pool := pool, slot := pkt, panicked := false }

/-- Result of the request-draining phase of `State::poll` (the
`while let Some(..) = ..pop_front()` loop). -/
structure DrainResult where
  packets : List Packet
  signalled : List Nat
  queue : List PublishRequest
  acked : IdMap
  pool : PacketIdentifiers
  failed : Bool

/-- The request-draining loop of `State::poll`: processes queued publish
requests front to back; a QoS 0 request emits its PUBLISH and signals its
notifier immediately; a QoS 1 / QoS 2 request reserves an identifier,
stores a dup-true copy in `waiting_to_be_acked` and emits a dup-false
PUBLISH; if `reserve` fails the request is pushed back to the front of the
queue and the loop aborts with the error. -/
def drainRequests (acked : IdMap) (pool : PacketIdentifiers) :
    List PublishRequest → DrainResult
  | [] => ⟨[], [], [], acked, pool, false⟩
  | req :: rest =>
    match req.publication.qos with
    | .atMostOnce =>
      let r := drainRequests acked pool rest
      { r with
        packets := .publish .atMostOnce req.publication.retain
          req.publication.topic_name req.publication.payload :: r.packets,
        signalled := req.ack_sender :: r.signalled }
    | .atLeastOnce =>
      match pool.reserve with
      | none => ⟨[], [], req :: rest, acked, pool, true⟩
      | some (id, pool1) =>
        let stored : Packet := .publish (.atLeastOnce id true)
          req.publication.retain req.publication.topic_name req.publication.payload
        let r := drainRequests (mapInsert id ⟨req.ack_sender, stored⟩ acked) pool1 rest
        { r with
          packets := .publish (.atLeastOnce id false) req.publication.retain
            req.publication.topic_name req.publication.payload :: r.packets }
    | .exactlyOnce =>
      match pool.reserve with
      | none => ⟨[], [], req :: rest, acked, pool, true⟩
      | some (id, pool1) =>
        let stored : Packet := .publish (.exactlyOnce id true)
          req.publication.retain req.publication.topic_name req.publication.payload
        let r := drainRequests (mapInsert id ⟨req.ack_sender, stored⟩ acked) pool1 rest
        { r with
          packets := .publish (.exactlyOnce id false) req.publication.retain
            req.publication.topic_name req.publication.payload :: r.packets }

/-- Result of a full `State::poll` call.  `outcome` is the function's
return value; `state`, `pool`, `signalled` and `slot` capture the side
effects on `self`, on the pool, on the completion notifiers and on the
`&mut Option<Packet>` slot, which persist even when `poll` returns an
error (and, for `state`/`pool`/`slot`, up to the panic point when it
panics). -/
structure PollResult where
  outcome : Except PollError (List Packet × Option ReceivedPublication)
  state : State
  pool : PacketIdentifiers
  signalled : List Nat
  slot : Option Packet

/-- Translation of `State::poll`: consume the inbound packet (if any),
drain the publish-request channel into the queue, then process the queue;
on pool exhaustion the accumulated outbound packets and the received
publication are dropped and the error is returned, while all state
mutations and notifier signals made so far persist. -/
def poll (s : State) (packet : Option Packet) (new_requests : List PublishRequest)
    (pool : PacketIdentifiers) : PollResult :=
  let ir := handleInbound s pool packet
  if ir.panicked then
    ⟨.error .assertFailed, ir.state, ir.pool, ir.signalled, ir.slot⟩
  else
    let queue := ir.state.publish_requests_waiting_to_be_sent ++ new_requests
    let dr := drainRequests ir.state.waiting_to_be_acked ir.pool queue
    let s1 : State := { ir.state with
      publish_requests_waiting_to_be_sent := dr.queue,
      waiting_to_be_acked := dr.acked }
    if dr.failed then
      ⟨.error .exhaustedPool, s1, dr.pool, ir.signalled ++ dr.signalled, ir.slot⟩
    else
      ⟨.ok (ir.packets ++ dr.packets, ir.publication_received), s1, dr.pool,
        ir.signalled ++ dr.signalled, ir.slot⟩

/-- Result of `State::new_connection`. -/
structure NewConnectionResult where
  packets : List Packet
  state : State
  pool : PacketIdentifiers

/-- Translation of `State::new_connection`: on session reset, move every
`waiting_to_be_completed` entry back into `waiting_to_be_acked`, discard
every `waiting_to_be_released` identifier and clear the set; then yield the
stored packets of `waiting_to_be_acked`, a PUBREC per id of
`waiting_to_be_released` and the stored packets of
`waiting_to_be_completed`, in map/set iteration order. -/
def new_connection (s : State) (reset_session : Bool)
    (pool : PacketIdentifiers) : NewConnectionResult :=
  let s1 : State :=
    if reset_session then
      { s with
        waiting_to_be_acked := mapAppend s.waiting_to_be_acked s.waiting_to_be_completed,
        waiting_to_be_completed := [],
        waiting_to_be_released := [] }
    else s
  let pool1 : PacketIdentifiers :=
    if reset_session then
      s.waiting_to_be_released.foldl PacketIdentifiers.discard pool
    else pool
  ⟨s1.waiting_to_be_acked.map (fun e => e.2.packet)
    ++ s1.waiting_to_be_released.map (fun id => Packet.pubRec id)
    ++ s1.waiting_to_be_completed.map (fun e => e.2.packet),
   s1, pool1⟩

/-- One step a run can take: a `poll` call (given the inbound packet and
the requests the channel yields), or a `new_connection` call. -/
inductive StepInput
| pollStep (packet : Option Packet) (new_requests : List PublishRequest)
| newConnectionStep (reset_session : Bool)

/-- Apply one step to a state/pool pair, also returning the notifier
tokens signalled during the step. -/
def step (sp : State × PacketIdentifiers) :
    StepInput → (State × PacketIdentifiers) × List Nat
  | .pollStep pkt reqs =>
    let r := poll sp.1 pkt reqs sp.2
    ((r.state, r.pool), r.signalled)
  | .newConnectionStep reset =>
    let r := new_connection sp.1 reset sp.2
    ((r.state, r.pool), [])

/-- Run a list of steps from a state/pool pair, collecting all signalled
notifier tokens in order. -/
def runFrom (sp : State × PacketIdentifiers) :
    List StepInput → (State × PacketIdentifiers) × List Nat
  | [] => (sp, [])
  | i :: tr =>
    let r := step sp i
    let rest := runFrom r.1 tr
    (rest.1, r.2 ++ rest.2)

/-- The state/pool pair reached by a run from the empty publish state and
the fresh pool. -/
def runState (tr : List StepInput) : State × PacketIdentifiers :=
  (runFrom (initialState, initialPool) tr).1

/-- All notifier tokens signalled during a run from the empty publish
state. -/
def runSignals (tr : List StepInput) : List Nat :=
  (runFrom (initialState, initialPool) tr).2

/-- The keys of a map model, in list order. -/
def mapKeys (m : IdMap) : List PacketIdentifier := m.map Prod.fst

/-- Well-formedness of a state: the key lists of the `BTreeMap` models and
the `BTreeSet` model are strictly sorted, as they are for the Rust
structures. -/
def State.WF (s : State) : Prop :=
  List.Pairwise (· < ·) (mapKeys s.waiting_to_be_acked) ∧
  List.Pairwise (· < ·) s.waiting_to_be_released ∧
  List.Pairwise (· < ·) (mapKeys s.waiting_to_be_completed)

instance (s : State) : Decidable s.WF := by
  unfold State.WF; infer_instance

/-- A pool with every identifier in use, as reached after 65,535
reservations without a discard. -/
def fullPool : PacketIdentifiers := ⟨fun _ => true, 1⟩

/-- Test whether a packet is a PUBLISH whose dup flag is true. -/
def packetDupTrue : Packet → Bool
  | .publish (.atLeastOnce _ true) _ _ _ => true
  | .publish (.exactlyOnce _ true) _ _ _ => true
  | _ => false

/-- The stored-dup invariant: every packet stored in `waiting_to_be_acked`
or `waiting_to_be_completed` is a PUBLISH with dup=true. -/
def storedDupOk (s : State) : Prop :=
  (∀ e ∈ s.waiting_to_be_acked, packetDupTrue e.2.packet = true) ∧
  (∀ e ∈ s.waiting_to_be_completed, packetDupTrue e.2.packet = true)

/-- A step consumes no inbound ExactlyOnce PUBLISH (the packets whose
identifiers are chosen by the server and inserted into
`waiting_to_be_released`). -/
def noInboundExactlyOnce : StepInput → Bool
  | .pollStep (some (.publish (.exactlyOnce _ _) _ _ _)) _ => false
  | _ => true

/-- Inductive invariant for C1: `waiting_to_be_released` stays empty, the
two maps have sorted keys, every key of either map is marked in use in the
pool, and the two key sets are disjoint. -/
def InvC1 (s : State) (pool : PacketIdentifiers) : Prop :=
  s.waiting_to_be_released = [] ∧
  List.Pairwise (· < ·) (mapKeys s.waiting_to_be_acked) ∧
  List.Pairwise (· < ·) (mapKeys s.waiting_to_be_completed) ∧
  (∀ id ∈ mapKeys s.waiting_to_be_acked, pool.in_use id = true) ∧
  (∀ id ∈ mapKeys s.waiting_to_be_completed, pool.in_use id = true) ∧
  (∀ id, ¬(id ∈ mapKeys s.waiting_to_be_acked ∧
    id ∈ mapKeys s.waiting_to_be_completed))

/-- The notifier tokens of a list of publish requests. -/
def requestTokens (reqs : List PublishRequest) : List Nat :=
  reqs.map (fun r => r.ack_sender)

/-- The notifier tokens stored in a map. -/
def mapTokens (m : IdMap) : List Nat :=
  m.map (fun e => e.2.ack_sender)

/-- All notifier tokens held by a state: in the queue, in
`waiting_to_be_acked` and in `waiting_to_be_completed`. -/
def stateTokens (s : State) : List Nat :=
  requestTokens s.publish_requests_waiting_to_be_sent ++
  mapTokens s.waiting_to_be_acked ++ mapTokens s.waiting_to_be_completed

/-- The notifier tokens a step introduces (those of newly submitted
publish requests). -/
def stepTokens : StepInput → List Nat
  | .pollStep _ reqs => requestTokens reqs
  | .newConnectionStep _ => []

/-- All notifier tokens introduced along a trace. -/
def traceTokens : List StepInput → List Nat
  | [] => []
  | i :: tr => stepTokens i ++ traceTokens tr

theorem reserve_eq_none_of_full (p : PacketIdentifiers)
    (h : ∀ id, p.in_use id = true) : p.reserve = none := by
  unfold PacketIdentifiers.reserve
  have hfind : (reserveCandidates p.cursor).find? (fun id => !p.in_use id) = none := by
    rw [List.find?_eq_none]
    intro x _
    simp [h x]
  rw [hfind]

theorem mapLookup_eq_none {m : IdMap} {id : PacketIdentifier} :
    mapLookup m id = none ↔ id ∉ mapKeys m := by
  induction m with
  | nil => simp [mapLookup, mapKeys]
  | cons kv rest ih =>
    obtain ⟨k, v⟩ := kv
    simp only [mapLookup, mapKeys, List.map_cons, List.mem_cons]
    split_ifs with h
    · simp [h]
    · simp only [mapKeys] at ih
      rw [ih]
      constructor
      · intro hx hc
        rcases hc with rfl | hc
        · exact h rfl
        · exact hx hc
      · intro hx hc
        exact hx (Or.inr hc)

theorem mem_keys_of_lookup {m : IdMap} {id : PacketIdentifier} {e : Entry}
    (h : mapLookup m id = some e) : id ∈ mapKeys m := by
  by_contra hmem
  rw [← mapLookup_eq_none] at hmem
  rw [h] at hmem
  exact Option.noConfusion hmem

theorem lookup_of_mem_keys {m : IdMap} {id : PacketIdentifier}
    (h : id ∈ mapKeys m) : ∃ e, mapLookup m id = some e := by
  cases hl : mapLookup m id with
  | none => exact absurd h (mapLookup_eq_none.mp hl)
  | some e => exact ⟨e, rfl⟩

theorem mapRemove_sublist (m : IdMap) (id : PacketIdentifier) :
    List.Sublist (mapRemove m id) m := by
  induction m with
  | nil => simp [mapRemove]
  | cons kv rest ih =>
    obtain ⟨k, v⟩ := kv
    simp only [mapRemove]
    split_ifs with h
    · exact List.sublist_cons_self (k, v) rest
    · exact ih.cons₂ (k, v)

theorem keys_mapRemove_sublist (m : IdMap) (id : PacketIdentifier) :
    List.Sublist (mapKeys (mapRemove m id)) (mapKeys m) :=
  (mapRemove_sublist m id).map Prod.fst

theorem mem_of_mem_mapRemove {m : IdMap} {id : PacketIdentifier}
    {e : PacketIdentifier × Entry} (h : e ∈ mapRemove m id) : e ∈ m :=
  (mapRemove_sublist m id).mem h

theorem mem_keys_mapRemove {m : IdMap} {id x : PacketIdentifier}
    (h : x ∈ mapKeys (mapRemove m id)) : x ∈ mapKeys m :=
  (keys_mapRemove_sublist m id).mem h

theorem not_mem_keys_mapRemove {m : IdMap} {id : PacketIdentifier}
    (hnd : (mapKeys m).Nodup) : id ∉ mapKeys (mapRemove m id) := by
  induction m with
  | nil => simp [mapRemove, mapKeys]
  | cons kv rest ih =>
    obtain ⟨k, v⟩ := kv
    simp only [mapKeys, List.map_cons, List.nodup_cons] at hnd
    simp only [mapRemove]
    split_ifs with h
    · subst h
      simpa [mapKeys] using hnd.1
    · simp only [mapKeys, List.map_cons, List.mem_cons]
      rintro (rfl | hmem)
      · exact h rfl
      · exact ih hnd.2 hmem

theorem mapLookup_mapInsert (m : IdMap) (k id : PacketIdentifier) (e : Entry) :
    mapLookup (mapInsert k e m) id = if id = k then some e else mapLookup m id := by
  induction m with
  | nil =>
    simp only [mapInsert, mapLookup]
  | cons kv rest ih =>
    obtain ⟨k1, v1⟩ := kv
    rcases Nat.lt_trichotomy k k1 with hlt | heq | hgt
    · have hm : mapInsert k e ((k1, v1) :: rest) = (k, e) :: (k1, v1) :: rest := by
        simp [mapInsert, hlt]
      rw [hm]
      simp only [mapLookup]
    · subst heq
      have hm : mapInsert k e ((k, v1) :: rest) = (k, e) :: rest := by
        simp [mapInsert, lt_irrefl]
      rw [hm]
      simp only [mapLookup]
      by_cases h : id = k <;> simp [h]
    · have hm : mapInsert k e ((k1, v1) :: rest) = (k1, v1) :: mapInsert k e rest := by
        simp [mapInsert, Nat.lt_asymm hgt, ne_of_gt hgt]
      rw [hm]
      simp only [mapLookup, ih]
      by_cases h1 : id = k1
      · subst h1
        simp [ne_of_lt hgt]
      · simp [h1]

theorem mem_keys_mapInsert {m : IdMap} {k : PacketIdentifier} {e : Entry}
    (x : PacketIdentifier) :
    x ∈ mapKeys (mapInsert k e m) ↔ x = k ∨ x ∈ mapKeys m := by
  induction m with
  | nil => simp [mapInsert, mapKeys]
  | cons kv rest ih =>
    obtain ⟨k1, v1⟩ := kv
    simp only [mapInsert]
    split_ifs with hlt heq
    · simp [mapKeys, List.mem_cons]
    · subst heq
      simp only [mapKeys, List.map_cons, List.mem_cons]
      constructor
      · rintro (rfl | h) <;> tauto
      · rintro (rfl | rfl | h) <;> tauto
    · simp only [mapKeys, List.map_cons, List.mem_cons] at ih ⊢
      rw [ih]
      tauto

theorem mem_mapInsert {m : IdMap} {k : PacketIdentifier} {e : Entry}
    {x : PacketIdentifier × Entry} (h : x ∈ mapInsert k e m) :
    x = (k, e) ∨ x ∈ m := by
  induction m with
  | nil => simpa [mapInsert] using h
  | cons kv rest ih =>
    obtain ⟨k1, v1⟩ := kv
    simp only [mapInsert] at h
    split_ifs at h with hlt heq
    · simpa using h
    · subst heq
      simp only [List.mem_cons] at h
      rcases h with rfl | h
      · exact Or.inl rfl
      · exact Or.inr (List.mem_cons_of_mem _ h)
    · simp only [List.mem_cons] at h
      rcases h with rfl | h
      · exact Or.inr (List.mem_cons_self _ _)
      · rcases ih h with h | h
        · exact Or.inl h
        · exact Or.inr (List.mem_cons_of_mem _ h)

theorem pairwise_keys_mapInsert {m : IdMap} {k : PacketIdentifier} {e : Entry}
    (h : List.Pairwise (· < ·) (mapKeys m)) :
    List.Pairwise (· < ·) (mapKeys (mapInsert k e m)) := by
  induction m with
  | nil => simp [mapInsert, mapKeys]
  | cons kv rest ih =>
    obtain ⟨k1, v1⟩ := kv
    simp only [mapKeys, List.map_cons, List.pairwise_cons] at h
    simp only [mapInsert]
    split_ifs with hlt heq
    · simp only [mapKeys, List.map_cons, List.pairwise_cons]
      refine ⟨?_, h.1, h.2⟩
      intro x hx
      simp only [List.mem_cons] at hx
      rcases hx with rfl | hx
      · exact hlt
      · exact lt_trans hlt (h.1 x hx)
    · subst heq
      simp only [mapKeys, List.map_cons, List.pairwise_cons]
      exact h
    · have hgt : k1 < k :=
        lt_of_le_of_ne (Nat.le_of_not_lt hlt) (fun hh => heq hh.symm)
      simp only [mapKeys, List.map_cons, List.pairwise_cons]
      refine ⟨?_, ih h.2⟩
      intro x hx
      have hx2 : x ∈ mapKeys (mapInsert k e rest) := hx
      rw [mem_keys_mapInsert] at hx2
      rcases hx2 with rfl | hx2
      · exact hgt
      · exact h.1 x hx2

theorem mem_mapAppend {a c : IdMap} {x : PacketIdentifier × Entry}
    (h : x ∈ mapAppend a c) : x ∈ a ∨ x ∈ c := by
  induction c generalizing a with
  | nil => simp only [mapAppend] at h; exact Or.inl h
  | cons kv rest ih =>
    obtain ⟨k, v⟩ := kv
    simp only [mapAppend] at h
    rcases ih h with h1 | h1
    · rcases mem_mapInsert h1 with rfl | h2
      · exact Or.inr (List.mem_cons_self _ _)
      · exact Or.inl h2
    · exact Or.inr (List.mem_cons_of_mem _ h1)

theorem mem_keys_mapAppend {a c : IdMap} (x : PacketIdentifier) :
    x ∈ mapKeys (mapAppend a c) ↔ x ∈ mapKeys a ∨ x ∈ mapKeys c := by
  induction c generalizing a with
  | nil => simp [mapAppend, mapKeys]
  | cons kv rest ih =>
    obtain ⟨k, v⟩ := kv
    simp only [mapAppend]
    rw [ih]
    rw [mem_keys_mapInsert]
    simp only [mapKeys, List.map_cons, List.mem_cons]
    tauto

theorem pairwise_keys_mapAppend {a c : IdMap}
    (h : List.Pairwise (· < ·) (mapKeys a)) :
    List.Pairwise (· < ·) (mapKeys (mapAppend a c)) := by
  induction c generalizing a with
  | nil => simpa [mapAppend] using h
  | cons kv rest ih =>
    obtain ⟨k, v⟩ := kv
    simp only [mapAppend]
    exact ih (pairwise_keys_mapInsert h)

theorem mapLookup_mapAppend {a c : IdMap} (id : PacketIdentifier)
    (hc : List.Pairwise (· < ·) (mapKeys c)) :
    mapLookup (mapAppend a c) id =
      match mapLookup c id with
      | some e => some e
      | none => mapLookup a id := by
  induction c generalizing a with
  | nil => simp [mapAppend, mapLookup]
  | cons kv rest ih =>
    obtain ⟨k, v⟩ := kv
    simp only [mapKeys, List.map_cons, List.pairwise_cons] at hc
    simp only [mapAppend]
    rw [ih hc.2]
    by_cases h : id = k
    · subst h
      have hnone : mapLookup rest id = none := by
        rw [mapLookup_eq_none]
        intro hmem
        exact absurd (hc.1 id hmem) (lt_irrefl id)
      simp [hnone, mapLookup, mapLookup_mapInsert]
    · simp [mapLookup, h, mapLookup_mapInsert]

theorem setContains_iff {s : IdSet} {id : PacketIdentifier} :
    setContains s id = true ↔ id ∈ s := by
  induction s with
  | nil => simp [setContains]
  | cons k rest ih =>
    simp only [setContains]
    split_ifs with h
    · simp [h]
    · simp only [List.mem_cons, ih]
      constructor
      · exact fun hx => Or.inr hx
      · rintro (rfl | hx)
        · exact absurd rfl h
        · exact hx

theorem mem_setInsert {s : IdSet} {id x : PacketIdentifier} :
    x ∈ setInsert id s ↔ x = id ∨ x ∈ s := by
  induction s with
  | nil => simp [setInsert]
  | cons k rest ih =>
    simp only [setInsert]
    split_ifs with hlt heq
    · simp [List.mem_cons]
    · subst heq
      simp only [List.mem_cons]
      tauto
    · simp only [List.mem_cons, ih]
      tauto

theorem pairwise_setInsert {s : IdSet} {id : PacketIdentifier}
    (h : List.Pairwise (· < ·) s) :
    List.Pairwise (· < ·) (setInsert id s) := by
  induction s with
  | nil => simp [setInsert]
  | cons k rest ih =>
    simp only [List.pairwise_cons] at h
    simp only [setInsert]
    split_ifs with hlt heq
    · simp only [List.pairwise_cons]
      refine ⟨?_, h.1, h.2⟩
      intro x hx
      simp only [List.mem_cons] at hx
      rcases hx with rfl | hx
      · exact hlt
      · exact lt_trans hlt (h.1 x hx)
    · subst heq
      simp only [List.pairwise_cons]
      exact h
    · have hgt : k < id :=
        lt_of_le_of_ne (Nat.le_of_not_lt hlt) (fun hh => heq hh.symm)
      simp only [List.pairwise_cons]
      refine ⟨?_, ih h.2⟩
      intro x hx
      rw [mem_setInsert] at hx
      rcases hx with rfl | hx
      · exact hgt
      · exact h.1 x hx

theorem setRemove_sublist (s : IdSet) (id : PacketIdentifier) :
    List.Sublist (setRemove s id) s := by
  induction s with
  | nil => simp [setRemove]
  | cons k rest ih =>
    simp only [setRemove]
    split_ifs with h
    · exact List.sublist_cons_self k rest
    · exact ih.cons₂ k

theorem mem_of_mem_setRemove {s : IdSet} {id x : PacketIdentifier}
    (h : x ∈ setRemove s id) : x ∈ s :=
  (setRemove_sublist s id).mem h

theorem in_use_foldl_discard (l : List Nat) (pool : PacketIdentifiers) (x : Nat) :
    (l.foldl PacketIdentifiers.discard pool).in_use x =
      if x ∈ l then false else pool.in_use x := by
  induction l generalizing pool with
  | nil => simp
  | cons k rest ih =>
    simp only [List.foldl_cons, ih, List.mem_cons]
    by_cases h : x ∈ rest
    · simp [h]
    · by_cases hk : x = k
      · simp [h, hk, PacketIdentifiers.discard]
      · simp [h, hk, PacketIdentifiers.discard]

theorem handleInbound_queue (s : State) (pool : PacketIdentifiers)
    (pkt : Option Packet) :
    (handleInbound s pool pkt).state.publish_requests_waiting_to_be_sent =
      s.publish_requests_waiting_to_be_sent := by
  rcases pkt with _ | p
  · rfl
  cases p with
  | publish pidq retain topic payload =>
    cases pidq with
    | atMostOnce => rfl
    | atLeastOnce id dup => rfl
    | exactlyOnce id dup =>
      simp only [handleInbound]
      split_ifs <;> rfl
  | pubAck id =>
    simp only [handleInbound]
    cases mapLookup s.waiting_to_be_acked id <;> rfl
  | pubComp id =>
    simp only [handleInbound]
    cases mapLookup s.waiting_to_be_completed id <;> rfl
  | pubRec id =>
    simp only [handleInbound]
    cases mapLookup s.waiting_to_be_acked id <;> rfl
  | pubRel id =>
    simp only [handleInbound]
    split_ifs <;> rfl
  | other => rfl

theorem handleInbound_slot (s : State) (pool : PacketIdentifiers)
    (q : Packet) (hq : q ≠ .other) :
    (handleInbound s pool (some q)).slot = none := by
  cases q with
  | publish pidq retain topic payload =>
    cases pidq with
    | atMostOnce => rfl
    | atLeastOnce id dup => rfl
    | exactlyOnce id dup =>
      simp only [handleInbound]
      split_ifs <;> rfl
  | pubAck id =>
    simp only [handleInbound]
    cases mapLookup s.waiting_to_be_acked id <;> rfl
  | pubComp id =>
    simp only [handleInbound]
    cases mapLookup s.waiting_to_be_completed id <;> rfl
  | pubRec id =>
    simp only [handleInbound]
    cases mapLookup s.waiting_to_be_acked id <;> rfl
  | pubRel id =>
    simp only [handleInbound]
    split_ifs <;> rfl
  | other => exact absurd rfl hq

theorem poll_slot (s : State) (pool : PacketIdentifiers) (pkt : Option Packet)
    (reqs : List PublishRequest) :
    (poll s pkt reqs pool).slot = (handleInbound s pool pkt).slot := by
  unfold poll
  by_cases hp : (handleInbound s pool pkt).panicked
  · simp [hp]
  · simp only [hp, Bool.false_eq_true, if_false]
    by_cases hf : (drainRequests (handleInbound s pool pkt).state.waiting_to_be_acked
        (handleInbound s pool pkt).pool
        ((handleInbound s pool pkt).state.publish_requests_waiting_to_be_sent ++ reqs)).failed
    · simp [hf]
    · simp [hf]

/-- The request-draining loop, when it fails, fails at a QoS 1 / QoS 2
request on which `reserve` returned `none`; that request is left (intact)
at the head of the remaining queue, the already-processed prefix is
consumed, and every QoS 0 request of that prefix has had its notifier
signalled. -/
theorem drainRequests_failed (queue : List PublishRequest) (acked : IdMap)
    (pool : PacketIdentifiers)
    (h : (drainRequests acked pool queue).failed = true) :
    ∃ pre req rest, queue = pre ++ req :: rest ∧
      (drainRequests acked pool queue).queue = req :: rest ∧
      req.publication.qos ≠ .atMostOnce ∧
      (drainRequests acked pool queue).pool.reserve = none ∧
      (∀ r1 ∈ pre, r1.publication.qos = .atMostOnce →
        r1.ack_sender ∈ (drainRequests acked pool queue).signalled) := by
  induction queue generalizing acked pool with
  | nil => exact absurd h (by simp [drainRequests])
  | cons req rest ih =>
    cases hqos : req.publication.qos with
    | atMostOnce =>
      have hd : drainRequests acked pool (req :: rest) =
          { drainRequests acked pool rest with
            packets := .publish .atMostOnce req.publication.retain
              req.publication.topic_name req.publication.payload ::
              (drainRequests acked pool rest).packets,
            signalled := req.ack_sender :: (drainRequests acked pool rest).signalled } := by
        simp [drainRequests, hqos]
      rw [hd] at h ⊢
      simp only at h
      obtain ⟨pre, req1, rest1, he, hq, hqos1, hres, hsig⟩ := ih acked pool h
      refine ⟨req :: pre, req1, rest1, by simp [he], hq, hqos1, hres, ?_⟩
      intro r1 hr1 hr1qos
      simp only [List.mem_cons] at hr1
      rcases hr1 with rfl | hr1
      · exact List.mem_cons_self _ _
      · exact List.mem_cons_of_mem _ (hsig r1 hr1 hr1qos)
    | atLeastOnce =>
      cases hres : pool.reserve with
      | none =>
        have hd : drainRequests acked pool (req :: rest) =
            ⟨[], [], req :: rest, acked, pool, true⟩ := by
          simp [drainRequests, hqos, hres]
        refine ⟨[], req, rest, by simp, by rw [hd], by simp [hqos], ?_, by simp⟩
        rw [hd]
        exact hres
      | some idpool =>
        obtain ⟨id, pool1⟩ := idpool
        have hd : drainRequests acked pool (req :: rest) =
            { drainRequests (mapInsert id ⟨req.ack_sender,
                .publish (.atLeastOnce id true) req.publication.retain
                  req.publication.topic_name req.publication.payload⟩ acked) pool1 rest with
              packets := .publish (.atLeastOnce id false) req.publication.retain
                req.publication.topic_name req.publication.payload ::
                (drainRequests (mapInsert id ⟨req.ack_sender,
                  .publish (.atLeastOnce id true) req.publication.retain
                    req.publication.topic_name req.publication.payload⟩ acked)
                  pool1 rest).packets } := by
          simp [drainRequests, hqos, hres]
        rw [hd] at h ⊢
        simp only at h
        obtain ⟨pre, req1, rest1, he, hq, hqos1, hres1, hsig⟩ := ih _ pool1 h
        exact ⟨req :: pre, req1, rest1, by simp [he], hq, hqos1, hres1, by
          intro r1 hr1 hr1qos
          simp only [List.mem_cons] at hr1
          rcases hr1 with rfl | hr1
          · rw [hr1qos] at hqos; exact absurd hqos (by simp)
          · exact hsig r1 hr1 hr1qos⟩
    | exactlyOnce =>
      cases hres : pool.reserve with
      | none =>
        have hd : drainRequests acked pool (req :: rest) =
            ⟨[], [], req :: rest, acked, pool, true⟩ := by
          simp [drainRequests, hqos, hres]
        refine ⟨[], req, rest, by simp, by rw [hd], by simp [hqos], ?_, by simp⟩
        rw [hd]
        exact hres
      | some idpool =>
        obtain ⟨id, pool1⟩ := idpool
        have hd : drainRequests acked pool (req :: rest) =
            { drainRequests (mapInsert id ⟨req.ack_sender,
                .publish (.exactlyOnce id true) req.publication.retain
                  req.publication.topic_name req.publication.payload⟩ acked) pool1 rest with
              packets := .publish (.exactlyOnce id false) req.publication.retain
                req.publication.topic_name req.publication.payload ::
                (drainRequests (mapInsert id ⟨req.ack_sender,
                  .publish (.exactlyOnce id true) req.publication.retain
                    req.publication.topic_name req.publication.payload⟩ acked)
                  pool1 rest).packets } := by
          simp [drainRequests, hqos, hres]
        rw [hd] at h ⊢
        simp only at h
        obtain ⟨pre, req1, rest1, he, hq, hqos1, hres1, hsig⟩ := ih _ pool1 h
        exact ⟨req :: pre, req1, rest1, by simp [he], hq, hqos1, hres1, by
          intro r1 hr1 hr1qos
          simp only [List.mem_cons] at hr1
          rcases hr1 with rfl | hr1
          · rw [hr1qos] at hqos; exact absurd hqos (by simp)
          · exact hsig r1 hr1 hr1qos⟩

theorem drainRequests_qos0_cons (acked : IdMap) (pool : PacketIdentifiers)
    (req : PublishRequest) (rest : List PublishRequest)
    (h : req.publication.qos = .atMostOnce) :
    drainRequests acked pool (req :: rest) =
      { drainRequests acked pool rest with
        packets := .publish .atMostOnce req.publication.retain
          req.publication.topic_name req.publication.payload ::
          (drainRequests acked pool rest).packets,
        signalled := req.ack_sender :: (drainRequests acked pool rest).signalled } := by
  simp [drainRequests, h]

theorem drainRequests_reserve_none (acked : IdMap) (pool : PacketIdentifiers)
    (req : PublishRequest) (rest : List PublishRequest)
    (hres : pool.reserve = none) (hq : req.publication.qos ≠ .atMostOnce) :
    drainRequests acked pool (req :: rest) =
      ⟨[], [], req :: rest, acked, pool, true⟩ := by
  cases hqos : req.publication.qos with
  | atMostOnce => exact absurd hqos hq
  | atLeastOnce => simp [drainRequests, hqos, hres]
  | exactlyOnce => simp [drainRequests, hqos, hres]

theorem poll_error_of_drain_failed (s : State) (pool : PacketIdentifiers)
    (pkt : Option Packet) (reqs : List PublishRequest) (ir : InboundResult)
    (hir : handleInbound s pool pkt = ir)
    (hp : ir.panicked = false)
    (hf : (drainRequests ir.state.waiting_to_be_acked ir.pool
      (ir.state.publish_requests_waiting_to_be_sent ++ reqs)).failed = true) :
    (poll s pkt reqs pool).outcome = .error .exhaustedPool := by
  simp [poll, hir, hp, hf]

/-! ## C2: new_connection -/

/-- C2: for every well-formed publish state and every reset flag,
`new_connection` behaves as claimed: when `reset_session` is true, the
resulting `waiting_to_be_acked` contains every entry of the old
`waiting_to_be_completed` (overriding equal ids) together with the
remaining old `waiting_to_be_acked` entries, every id of
`waiting_to_be_released` is discarded to the pool and both
`waiting_to_be_released` and `waiting_to_be_completed` are cleared; when
false, state and pool are untouched.  In both cases the yielded packets
are exactly the stored PUBLISH of every (resulting) `waiting_to_be_acked`
entry, then a PUBREC per id of `waiting_to_be_released`, then the stored
PUBLISH of every `waiting_to_be_completed` entry, each group in ascending
id order. -/
theorem c2_new_connection_replay (s : State) (pool : PacketIdentifiers)
    (reset : Bool) (hwf : s.WF) :
    (new_connection s reset pool).packets =
      (new_connection s reset pool).state.waiting_to_be_acked.map (fun e => e.2.packet)
      ++ (new_connection s reset pool).state.waiting_to_be_released.map
          (fun id => Packet.pubRec id)
      ++ (new_connection s reset pool).state.waiting_to_be_completed.map
          (fun e => e.2.packet) ∧
    List.Pairwise (· < ·)
      (mapKeys (new_connection s reset pool).state.waiting_to_be_acked) ∧
    List.Pairwise (· < ·)
      (new_connection s reset pool).state.waiting_to_be_released ∧
    List.Pairwise (· < ·)
      (mapKeys (new_connection s reset pool).state.waiting_to_be_completed) ∧
    (reset = true →
      (∀ id, mapLookup (new_connection s reset pool).state.waiting_to_be_acked id =
        match mapLookup s.waiting_to_be_completed id with
        | some e => some e
        | none => mapLookup s.waiting_to_be_acked id) ∧
      (∀ id, id ∈ mapKeys (new_connection s reset pool).state.waiting_to_be_acked ↔
        id ∈ mapKeys s.waiting_to_be_acked ∨ id ∈ mapKeys s.waiting_to_be_completed) ∧
      (new_connection s reset pool).state.waiting_to_be_released = [] ∧
      (new_connection s reset pool).state.waiting_to_be_completed = [] ∧
      (∀ id, (new_connection s reset pool).pool.in_use id =
        if id ∈ s.waiting_to_be_released then false else pool.in_use id)) ∧
    (reset = false →
      (new_connection s reset pool).state = s ∧
      (new_connection s reset pool).pool = pool) := by
  obtain ⟨hwa, hwr, hwc⟩ := hwf
  cases reset with
  | false =>
    refine ⟨rfl, hwa, hwr, hwc, by intro hc; exact absurd hc (by simp), ?_⟩
    intro _
    exact ⟨rfl, rfl⟩
  | true =>
    refine ⟨rfl, ?_, ?_, ?_, ?_, by intro hc; exact absurd hc (by simp)⟩
    · exact pairwise_keys_mapAppend hwa
    · simp [new_connection]
    · simp [new_connection, mapKeys]
    · intro _
      refine ⟨?_, ?_, rfl, rfl, ?_⟩
      · intro id
        exact mapLookup_mapAppend id hwc
      · intro id
        exact mem_keys_mapAppend id
      · intro id
        exact in_use_foldl_discard s.waiting_to_be_released pool id

/-- C2 witness: a concrete reset `new_connection` on a state with one
entry in each set: the completed entry merges back into
`waiting_to_be_acked`, the released id 2 is discarded, and the replay is
the two stored PUBLISH packets in ascending id order. -/
theorem c2_witness :
    (new_connection
        ⟨[], [(1, ⟨5, .publish (.atLeastOnce 1 true) false "a" []⟩)], [2],
          [(3, ⟨6, .publish (.exactlyOnce 3 true) false "b" []⟩)]⟩
        true initialPool).state.waiting_to_be_completed = [] ∧
    (∀ id, id ∈ mapKeys (new_connection
        ⟨[], [(1, ⟨5, .publish (.atLeastOnce 1 true) false "a" []⟩)], [2],
          [(3, ⟨6, .publish (.exactlyOnce 3 true) false "b" []⟩)]⟩
        true initialPool).state.waiting_to_be_acked ↔
      id ∈ mapKeys [(1, ⟨5, .publish (.atLeastOnce 1 true) false "a" []⟩)] ∨
      id ∈ mapKeys [(3, ⟨6, .publish (.exactlyOnce 3 true) false "b" []⟩)]) :=
  ⟨((c2_new_connection_replay
      ⟨[], [(1, ⟨5, .publish (.atLeastOnce 1 true) false "a" []⟩)], [2],
        [(3, ⟨6, .publish (.exactlyOnce 3 true) false "b" []⟩)]⟩
      initialPool true (by constructor <;> simp [mapKeys])).2.2.2.2.1
      rfl).2.2.2.1,
   ((c2_new_connection_replay
      ⟨[], [(1, ⟨5, .publish (.atLeastOnce 1 true) false "a" []⟩)], [2],
        [(3, ⟨6, .publish (.exactlyOnce 3 true) false "b" []⟩)]⟩
      initialPool true (by constructor <;> simp [mapKeys])).2.2.2.2.1
      rfl).2.1⟩

/-! ## C6: pool-exhaustion back-pressure -/

/-- C6: whenever `poll` returns the pool-exhaustion error, the request
whose `reserve` failed is a QoS 1 or QoS 2 request; it sits — publication
and notifier intact — back at the head of
`publish_requests_waiting_to_be_sent` (with the unprocessed remainder
behind it), and `reserve` on the resulting pool indeed fails, so a later
`poll` retries the same request rather than consuming or dropping it. -/
theorem c6_exhaustion_pushback (s : State) (pool : PacketIdentifiers)
    (pkt : Option Packet) (reqs : List PublishRequest)
    (herr : (poll s pkt reqs pool).outcome = .error .exhaustedPool) :
    ∃ pre req rest,
      s.publish_requests_waiting_to_be_sent ++ reqs = pre ++ req :: rest ∧
      (poll s pkt reqs pool).state.publish_requests_waiting_to_be_sent =
        req :: rest ∧
      req.publication.qos ≠ .atMostOnce ∧
      (poll s pkt reqs pool).pool.reserve = none := by
  by_cases hp : (handleInbound s pool pkt).panicked
  · exfalso
    rw [show (poll s pkt reqs pool).outcome = .error .assertFailed by
      simp [poll, hp]] at herr
    simp at herr
  · by_cases hf : (drainRequests (handleInbound s pool pkt).state.waiting_to_be_acked
        (handleInbound s pool pkt).pool
        ((handleInbound s pool pkt).state.publish_requests_waiting_to_be_sent ++ reqs)).failed
    · obtain ⟨pre, req, rest, he, hq, hqos, hres, _⟩ :=
        drainRequests_failed _ _ _ hf
      rw [handleInbound_queue] at he
      refine ⟨pre, req, rest, he, ?_, hqos, ?_⟩
      · rw [show (poll s pkt reqs pool).state.publish_requests_waiting_to_be_sent =
          (drainRequests (handleInbound s pool pkt).state.waiting_to_be_acked
            (handleInbound s pool pkt).pool
            ((handleInbound s pool pkt).state.publish_requests_waiting_to_be_sent ++ reqs)).queue by
          simp [poll, hp, hf]]
        exact hq
      · rw [show (poll s pkt reqs pool).pool =
          (drainRequests (handleInbound s pool pkt).state.waiting_to_be_acked
            (handleInbound s pool pkt).pool
            ((handleInbound s pool pkt).state.publish_requests_waiting_to_be_sent ++ reqs)).pool by
          simp [poll, hp, hf]]
        exact hres
    · exfalso
      rw [show (poll s pkt reqs pool).outcome =
          .ok ((handleInbound s pool pkt).packets ++
            (drainRequests (handleInbound s pool pkt).state.waiting_to_be_acked
              (handleInbound s pool pkt).pool
              ((handleInbound s pool pkt).state.publish_requests_waiting_to_be_sent ++ reqs)).packets,
            (handleInbound s pool pkt).publication_received) by
        simp [poll, hp, hf]] at herr
      simp at herr

/-- C6 witness: on a concretely exhausted pool a single queued QoS 1
request triggers the error, stays at the head of the queue, and the pool
still cannot reserve. -/
theorem c6_witness :
    ∃ pre req rest,
      initialState.publish_requests_waiting_to_be_sent ++
        [⟨⟨"q", .atLeastOnce, false, []⟩, 3⟩] = pre ++ req :: rest ∧
      (poll initialState none [⟨⟨"q", .atLeastOnce, false, []⟩, 3⟩]
        fullPool).state.publish_requests_waiting_to_be_sent = req :: rest ∧
      req.publication.qos ≠ .atMostOnce ∧
      (poll initialState none [⟨⟨"q", .atLeastOnce, false, []⟩, 3⟩]
        fullPool).pool.reserve = none :=
  c6_exhaustion_pushback initialState fullPool none
    [⟨⟨"q", .atLeastOnce, false, []⟩, 3⟩]
    (by
      have hres : fullPool.reserve = none :=
        reserve_eq_none_of_full fullPool (fun _ => rfl)
      refine poll_error_of_drain_failed initialState fullPool none
        [⟨⟨"q", .atLeastOnce, false, []⟩, 3⟩]
        ⟨[], none, [], initialState, fullPool, none, false⟩ rfl rfl ?_
      dsimp only [initialState, List.nil_append]
      rw [drainRequests_reserve_none [] fullPool
        ⟨⟨"q", .atLeastOnce, false, []⟩, 3⟩ [] hres (by decide)])

/-! ## C10: non-atomicity of poll on exhaustion -/

/-- C10: when `poll` returns the pool-exhaustion error, no outbound
packets and no received publication are returned (the responses to the
consumed inbound packet and the QoS 0 PUBLISHes accumulated earlier in the
same call are dropped); the consumed inbound packet is not restored to the
packet slot; the already-processed prefix of the queue is consumed — the
notifiers of its QoS 0 requests having already been signalled — and only
the failing request itself is preserved at the head of the queue. -/
theorem c10_error_drops_outputs (s : State) (pool : PacketIdentifiers)
    (pkt : Option Packet) (reqs : List PublishRequest)
    (herr : (poll s pkt reqs pool).outcome = .error .exhaustedPool) :
    (∀ pkts pub, (poll s pkt reqs pool).outcome ≠ .ok (pkts, pub)) ∧
    (∀ q, pkt = some q → q ≠ .other → (poll s pkt reqs pool).slot = none) ∧
    (∃ pre req rest,
      s.publish_requests_waiting_to_be_sent ++ reqs = pre ++ req :: rest ∧
      (poll s pkt reqs pool).state.publish_requests_waiting_to_be_sent =
        req :: rest ∧
      req.publication.qos ≠ .atMostOnce ∧
      (∀ r1 ∈ pre, r1.publication.qos = .atMostOnce →
        r1.ack_sender ∈ (poll s pkt reqs pool).signalled)) := by
  refine ⟨?_, ?_, ?_⟩
  · intro pkts pub hc
    rw [herr] at hc
    exact Except.noConfusion hc
  · intro q hpkt hq
    rw [poll_slot, hpkt]
    exact handleInbound_slot s pool q hq
  · by_cases hp : (handleInbound s pool pkt).panicked
    · exfalso
      rw [show (poll s pkt reqs pool).outcome = .error .assertFailed by
        simp [poll, hp]] at herr
      simp at herr
    · by_cases hf : (drainRequests (handleInbound s pool pkt).state.waiting_to_be_acked
          (handleInbound s pool pkt).pool
          ((handleInbound s pool pkt).state.publish_requests_waiting_to_be_sent ++ reqs)).failed
      · obtain ⟨pre, req, rest, he, hq, hqos, _, hsig⟩ :=
          drainRequests_failed _ _ _ hf
        rw [handleInbound_queue] at he
        refine ⟨pre, req, rest, he, ?_, hqos, ?_⟩
        · rw [show (poll s pkt reqs pool).state.publish_requests_waiting_to_be_sent =
            (drainRequests (handleInbound s pool pkt).state.waiting_to_be_acked
              (handleInbound s pool pkt).pool
              ((handleInbound s pool pkt).state.publish_requests_waiting_to_be_sent ++ reqs)).queue by
            simp [poll, hp, hf]]
          exact hq
        · intro r1 hr1 hr1qos
          rw [show (poll s pkt reqs pool).signalled =
            (handleInbound s pool pkt).signalled ++
              (drainRequests (handleInbound s pool pkt).state.waiting_to_be_acked
                (handleInbound s pool pkt).pool
                ((handleInbound s pool pkt).state.publish_requests_waiting_to_be_sent ++ reqs)).signalled by
            simp [poll, hp, hf]]
          exact List.mem_append_right _ (hsig r1 hr1 hr1qos)
      · exfalso
        rw [show (poll s pkt reqs pool).outcome =
            .ok ((handleInbound s pool pkt).packets ++
              (drainRequests (handleInbound s pool pkt).state.waiting_to_be_acked
                (handleInbound s pool pkt).pool
                ((handleInbound s pool pkt).state.publish_requests_waiting_to_be_sent ++ reqs)).packets,
              (handleInbound s pool pkt).publication_received) by
          simp [poll, hp, hf]] at herr
        simp at herr

/-- C10 witness: with an exhausted pool, an inbound PUBREC is consumed (the
slot stays empty and the PUBREL response is dropped), a leading QoS 0
request is consumed with its notifier signalled, and the failing QoS 2
request stays at the head of the queue. -/
theorem c10_witness :
    (∀ pkts pub,
      (poll initialState (some (.pubRec 11))
        [⟨⟨"z", .atMostOnce, false, []⟩, 1⟩, ⟨⟨"z", .exactlyOnce, false, []⟩, 2⟩]
        fullPool).outcome ≠ .ok (pkts, pub)) ∧
    (∀ q, (some (Packet.pubRec 11) : Option Packet) = some q → q ≠ .other →
      (poll initialState (some (.pubRec 11))
        [⟨⟨"z", .atMostOnce, false, []⟩, 1⟩, ⟨⟨"z", .exactlyOnce, false, []⟩, 2⟩]
        fullPool).slot = none) ∧
    (∃ pre req rest,
      initialState.publish_requests_waiting_to_be_sent ++
        [⟨⟨"z", .atMostOnce, false, []⟩, 1⟩, ⟨⟨"z", .exactlyOnce, false, []⟩, 2⟩] =
        pre ++ req :: rest ∧
      (poll initialState (some (.pubRec 11))
        [⟨⟨"z", .atMostOnce, false, []⟩, 1⟩, ⟨⟨"z", .exactlyOnce, false, []⟩, 2⟩]
        fullPool).state.publish_requests_waiting_to_be_sent = req :: rest ∧
      req.publication.qos ≠ .atMostOnce ∧
      (∀ r1 ∈ pre, r1.publication.qos = .atMostOnce →
        r1.ack_sender ∈ (poll initialState (some (.pubRec 11))
          [⟨⟨"z", .atMostOnce, false, []⟩, 1⟩, ⟨⟨"z", .exactlyOnce, false, []⟩, 2⟩]
          fullPool).signalled)) :=
  c10_error_drops_outputs initialState fullPool (some (.pubRec 11))
    [⟨⟨"z", .atMostOnce, false, []⟩, 1⟩, ⟨⟨"z", .exactlyOnce, false, []⟩, 2⟩]
    (by
      have hres : fullPool.reserve = none :=
        reserve_eq_none_of_full fullPool (fun _ => rfl)
      have hA : drainRequests ([] : IdMap) fullPool
          [⟨⟨"z", .exactlyOnce, false, []⟩, 2⟩] =
          ⟨[], [], [⟨⟨"z", .exactlyOnce, false, []⟩, 2⟩], [], fullPool, true⟩ :=
        drainRequests_reserve_none [] fullPool
          ⟨⟨"z", .exactlyOnce, false, []⟩, 2⟩ [] hres (by decide)
      refine poll_error_of_drain_failed initialState fullPool (some (.pubRec 11))
        [⟨⟨"z", .atMostOnce, false, []⟩, 1⟩, ⟨⟨"z", .exactlyOnce, false, []⟩, 2⟩]
        ⟨[.pubRel 11], none, [], initialState, fullPool, none, false⟩ rfl rfl ?_
      dsimp only [initialState, List.nil_append]
      rw [drainRequests_qos0_cons [] fullPool ⟨⟨"z", .atMostOnce, false, []⟩, 1⟩
        [⟨⟨"z", .exactlyOnce, false, []⟩, 2⟩] rfl]
      dsimp only []
      rw [hA])

/-! ## C7: PUBACK handling -/

/-- C7 (amended): when no publish requests are queued or newly submitted,
consuming an inbound PUBACK(id) with id in `waiting_to_be_acked` removes
that entry, discards id to the identifier pool, signals its completion
notifier and emits no packets; consuming a PUBACK(id) for an unknown id
returns Ok, emits no packets, signals nothing, and leaves
`waiting_to_be_acked`, `waiting_to_be_released`, `waiting_to_be_completed`
and the identifier pool unchanged.  (The original claim, quantified over
every state, fails when publish requests are queued: draining them emits
packets and changes the state; see the counterexample.) -/
theorem c7_puback_handling (s : State) (pool : PacketIdentifiers)
    (id : PacketIdentifier)
    (hq : s.publish_requests_waiting_to_be_sent = []) :
    (∀ e, mapLookup s.waiting_to_be_acked id = some e →
      (poll s (some (.pubAck id)) [] pool).outcome = .ok ([], none) ∧
      (poll s (some (.pubAck id)) [] pool).state.waiting_to_be_acked =
        mapRemove s.waiting_to_be_acked id ∧
      (poll s (some (.pubAck id)) [] pool).state.waiting_to_be_released =
        s.waiting_to_be_released ∧
      (poll s (some (.pubAck id)) [] pool).state.waiting_to_be_completed =
        s.waiting_to_be_completed ∧
      (poll s (some (.pubAck id)) [] pool).pool = pool.discard id ∧
      (poll s (some (.pubAck id)) [] pool).signalled = [e.ack_sender]) ∧
    (mapLookup s.waiting_to_be_acked id = none →
      (poll s (some (.pubAck id)) [] pool).outcome = .ok ([], none) ∧
      (poll s (some (.pubAck id)) [] pool).state.waiting_to_be_acked =
        s.waiting_to_be_acked ∧
      (poll s (some (.pubAck id)) [] pool).state.waiting_to_be_released =
        s.waiting_to_be_released ∧
      (poll s (some (.pubAck id)) [] pool).state.waiting_to_be_completed =
        s.waiting_to_be_completed ∧
      (poll s (some (.pubAck id)) [] pool).pool = pool ∧
      (poll s (some (.pubAck id)) [] pool).signalled = []) := by
  constructor
  · intro e h
    simp [poll, handleInbound, h, hq, drainRequests]
  · intro h
    simp [poll, handleInbound, h, hq, drainRequests]

/-- C7 witness: a concrete PUBACK for a known id signals the stored
notifier and removes the entry. -/
theorem c7_witness :
    (poll ⟨[], [(4, ⟨9, .publish (.atLeastOnce 4 true) false "w" []⟩)], [], []⟩
        (some (.pubAck 4)) [] initialPool).signalled = [9] ∧
    (poll ⟨[], [(4, ⟨9, .publish (.atLeastOnce 4 true) false "w" []⟩)], [], []⟩
        (some (.pubAck 4)) [] initialPool).state.waiting_to_be_acked = [] :=
  ⟨((c7_puback_handling
      ⟨[], [(4, ⟨9, .publish (.atLeastOnce 4 true) false "w" []⟩)], [], []⟩
      initialPool 4 rfl).1 ⟨9, .publish (.atLeastOnce 4 true) false "w" []⟩
      rfl).2.2.2.2.2,
   ((c7_puback_handling
      ⟨[], [(4, ⟨9, .publish (.atLeastOnce 4 true) false "w" []⟩)], [], []⟩
      initialPool 4 rfl).1 ⟨9, .publish (.atLeastOnce 4 true) false "w" []⟩
      rfl).2.1⟩

/-- C7 counterexample to the claim as stated: with a QoS 0 publish request
queued, a PUBACK for an unknown id does NOT leave the state unchanged and
does NOT emit no packets — the queued request is drained, its PUBLISH is
emitted and its notifier signalled in the same `poll` call. -/
theorem c7_counterexample :
    (poll ⟨[⟨⟨"t", .atMostOnce, false, []⟩, 7⟩], [], [], []⟩
        (some (.pubAck 5)) [] initialPool).outcome =
      .ok ([.publish .atMostOnce false "t" []], none) ∧
    (poll ⟨[⟨⟨"t", .atMostOnce, false, []⟩, 7⟩], [], [], []⟩
        (some (.pubAck 5)) [] initialPool).signalled = [7] ∧
    (poll ⟨[⟨⟨"t", .atMostOnce, false, []⟩, 7⟩], [], [], []⟩
        (some (.pubAck 5)) [] initialPool).state.publish_requests_waiting_to_be_sent
      = [] := by
  exact ⟨rfl, rfl, rfl⟩

/-! ## C8: PUBREC handling -/

/-- C8 (amended): when no publish requests are queued or newly submitted,
consuming an inbound PUBREC(id) emits exactly PUBREL(id) (also when id is
unknown); when id is in `waiting_to_be_acked` the entry — notifier and
stored packet — moves to `waiting_to_be_completed`; an unknown id changes
no state beyond the emitted PUBREL.  (The original claim, quantified over
every state, fails when publish requests are queued: draining them emits
further packets and changes state, and on pool exhaustion in the same call
even the PUBREL is dropped; see the counterexample.) -/
theorem c8_pubrec_handling (s : State) (pool : PacketIdentifiers)
    (id : PacketIdentifier)
    (hq : s.publish_requests_waiting_to_be_sent = []) :
    (poll s (some (.pubRec id)) [] pool).outcome = .ok ([.pubRel id], none) ∧
    (poll s (some (.pubRec id)) [] pool).pool = pool ∧
    (poll s (some (.pubRec id)) [] pool).signalled = [] ∧
    (poll s (some (.pubRec id)) [] pool).state.waiting_to_be_released =
      s.waiting_to_be_released ∧
    (∀ e, mapLookup s.waiting_to_be_acked id = some e →
      (poll s (some (.pubRec id)) [] pool).state.waiting_to_be_acked =
        mapRemove s.waiting_to_be_acked id ∧
      (poll s (some (.pubRec id)) [] pool).state.waiting_to_be_completed =
        mapInsert id e s.waiting_to_be_completed) ∧
    (mapLookup s.waiting_to_be_acked id = none →
      (poll s (some (.pubRec id)) [] pool).state.waiting_to_be_acked =
        s.waiting_to_be_acked ∧
      (poll s (some (.pubRec id)) [] pool).state.waiting_to_be_completed =
        s.waiting_to_be_completed) := by
  cases h : mapLookup s.waiting_to_be_acked id with
  | some e =>
    refine ⟨?_, ?_, ?_, ?_, ?_, ?_⟩ <;>
      simp [poll, handleInbound, h, hq, drainRequests]
  | none =>
    refine ⟨?_, ?_, ?_, ?_, ?_, ?_⟩ <;>
      simp [poll, handleInbound, h, hq, drainRequests]

/-- C8 witness: a concrete PUBREC for a known id emits PUBREL and moves
the entry to `waiting_to_be_completed`. -/
theorem c8_witness :
    (poll ⟨[], [(2, ⟨8, .publish (.exactlyOnce 2 true) false "v" []⟩)], [], []⟩
        (some (.pubRec 2)) [] initialPool).outcome = .ok ([.pubRel 2], none) ∧
    (poll ⟨[], [(2, ⟨8, .publish (.exactlyOnce 2 true) false "v" []⟩)], [], []⟩
        (some (.pubRec 2)) [] initialPool).state.waiting_to_be_completed =
      [(2, ⟨8, .publish (.exactlyOnce 2 true) false "v" []⟩)] :=
  ⟨(c8_pubrec_handling
      ⟨[], [(2, ⟨8, .publish (.exactlyOnce 2 true) false "v" []⟩)], [], []⟩
      initialPool 2 rfl).1,
   (((c8_pubrec_handling
      ⟨[], [(2, ⟨8, .publish (.exactlyOnce 2 true) false "v" []⟩)], [], []⟩
      initialPool 2 rfl).2.2.2.2.1
      ⟨8, .publish (.exactlyOnce 2 true) false "v" []⟩ rfl).2)⟩

/-- C8 counterexample to the claim as stated: with a QoS 0 publish request
queued, a PUBREC for an unknown id changes state beyond the emitted PUBREL
(the queue is drained) and emits more than the PUBREL. -/
theorem c8_counterexample :
    (poll ⟨[⟨⟨"u", .atMostOnce, true, [3]⟩, 6⟩], [], [], []⟩
        (some (.pubRec 9)) [] initialPool).outcome =
      .ok ([.pubRel 9, .publish .atMostOnce true "u" [3]], none) ∧
    (poll ⟨[⟨⟨"u", .atMostOnce, true, [3]⟩, 6⟩], [], [], []⟩
        (some (.pubRec 9)) [] initialPool).state.publish_requests_waiting_to_be_sent
      = [] ∧
    (poll ⟨[⟨⟨"u", .atMostOnce, true, [3]⟩, 6⟩], [], [], []⟩
        (some (.pubRec 9)) [] initialPool).signalled = [6] := by
  exact ⟨rfl, rfl, rfl⟩

theorem poll_panics_on_dup_false (s : State) (pool : PacketIdentifiers)
    (id : PacketIdentifier) (retain : Bool) (topic : String)
    (payload : List Nat) (reqs : List PublishRequest)
    (h : setContains s.waiting_to_be_released id = true) :
    (poll s (some (.publish (.exactlyOnce id false) retain topic payload))
        reqs pool).outcome = .error .assertFailed ∧
    (poll s (some (.publish (.exactlyOnce id false) retain topic payload))
        reqs pool).state = s ∧
    (poll s (some (.publish (.exactlyOnce id false) retain topic payload))
        reqs pool).pool = pool ∧
    (poll s (some (.publish (.exactlyOnce id false) retain topic payload))
        reqs pool).signalled = [] := by
  refine ⟨?_, ?_, ?_, ?_⟩ <;> simp [poll, handleInbound, h]

/-! ## C9: the duplicate-with-dup-false assertion -/

/-- C9 (amended): for every inbound PUBLISH with tag ExactlyOnce(id,
dup=false) whose id is already in `waiting_to_be_released`, `poll`
panics — the source uses `assert!(dup)`, which is active in ALL builds,
not only debug builds — so no ReceivedPublication is produced, no PUBREC
is re-emitted, nothing is signalled, and the state and pool are left as
they were at the panic point. -/
theorem c9_assert_fires (s : State) (pool : PacketIdentifiers)
    (id : PacketIdentifier) (retain : Bool) (topic : String)
    (payload : List Nat) (reqs : List PublishRequest)
    (h : setContains s.waiting_to_be_released id = true) :
    (poll s (some (.publish (.exactlyOnce id false) retain topic payload))
        reqs pool).outcome = .error .assertFailed ∧
    (poll s (some (.publish (.exactlyOnce id false) retain topic payload))
        reqs pool).state = s ∧
    (poll s (some (.publish (.exactlyOnce id false) retain topic payload))
        reqs pool).pool = pool ∧
    (poll s (some (.publish (.exactlyOnce id false) retain topic payload))
        reqs pool).signalled = [] :=
  poll_panics_on_dup_false s pool id retain topic payload reqs h

/-- C9 witness: concrete duplicate inbound ExactlyOnce PUBLISH with
dup=false on id 3 panics. -/
theorem c9_witness :
    (poll ⟨[], [], [3], []⟩ (some (.publish (.exactlyOnce 3 false) false "p" [1]))
        [] initialPool).outcome = .error .assertFailed :=
  (c9_assert_fires ⟨[], [], [3], []⟩ initialPool 3 false "p" [1] [] rfl).1

/-- C9 counterexample to the claim as stated: the claim says `poll` does
not panic and re-emits PUBREC(id).  On the concrete two-step run in which
PUBLISH ExactlyOnce(1, dup=true) arrives and then PUBLISH
ExactlyOnce(1, dup=false) arrives again, the second `poll` call hits the
`assert!(dup)` (active in release builds too) and returns no PUBREC at
all. -/
theorem c9_counterexample :
    (poll
      (poll initialState (some (.publish (.exactlyOnce 1 true) false "p" [2]))
        [] initialPool).state
      (some (.publish (.exactlyOnce 1 false) false "p" [2])) []
      (poll initialState (some (.publish (.exactlyOnce 1 true) false "p" [2]))
        [] initialPool).pool).outcome = .error .assertFailed := by
  exact rfl

/-! ## C3: inbound QoS 2 deduplication -/

/-- C3 (amended): when `poll` consumes an inbound PUBLISH with tag
ExactlyOnce(id, dup) and returns Ok: if id is already in
`waiting_to_be_released` then no ReceivedPublication is produced and
PUBREC(id) is emitted again with the set unchanged; otherwise id is
inserted into `waiting_to_be_released`, exactly the one corresponding
ReceivedPublication is produced, and PUBREC(id) is emitted.  Hence while
an id stays in `waiting_to_be_released` — from its insertion until the
PUBREL that removes it — duplicate PUBLISHes for it never reach the user.
(The original claim fails when the same `poll` call does not return Ok:
with dup=false on a duplicate the `assert!(dup)` panics, and on pool
exhaustion by a queued request the PUBREC and publication are dropped;
see the counterexample.) -/
theorem c3_inbound_qos2_dedup (s : State) (pool : PacketIdentifiers)
    (id : PacketIdentifier) (dup retain : Bool) (topic : String)
    (payload : List Nat) (reqs : List PublishRequest)
    (pkts : List Packet) (pub : Option ReceivedPublication)
    (hok : (poll s (some (.publish (.exactlyOnce id dup) retain topic payload))
        reqs pool).outcome = .ok (pkts, pub)) :
    (setContains s.waiting_to_be_released id = true →
      pub = none ∧ Packet.pubRec id ∈ pkts ∧
      (poll s (some (.publish (.exactlyOnce id dup) retain topic payload))
          reqs pool).state.waiting_to_be_released = s.waiting_to_be_released) ∧
    (setContains s.waiting_to_be_released id = false →
      pub = some ⟨topic, dup, .exactlyOnce, payload⟩ ∧ Packet.pubRec id ∈ pkts ∧
      (poll s (some (.publish (.exactlyOnce id dup) retain topic payload))
          reqs pool).state.waiting_to_be_released =
        setInsert id s.waiting_to_be_released) := by
  constructor
  · intro hc
    cases dup with
    | false =>
      exfalso
      have h1 := (poll_panics_on_dup_false s pool id retain topic payload reqs hc).1
      rw [h1] at hok
      exact Except.noConfusion hok
    | true =>
      revert hok
      simp only [poll, handleInbound, hc, if_pos, if_true]
      by_cases hf : (drainRequests s.waiting_to_be_acked pool
          (s.publish_requests_waiting_to_be_sent ++ reqs)).failed
      · simp [hf]
      · simp only [hf, if_pos, if_true, Bool.false_eq_true, if_false]
        intro hok
        have hp : pkts = Packet.pubRec id ::
            (drainRequests s.waiting_to_be_acked pool
              (s.publish_requests_waiting_to_be_sent ++ reqs)).packets ∧
            pub = none := by
          have := hok
          simp only [Except.ok.injEq, Prod.mk.injEq] at this
          exact ⟨this.1.symm, this.2.symm⟩
        exact ⟨hp.2, by rw [hp.1]; exact List.mem_cons_self _ _, trivial⟩
  · intro hc
    revert hok
    simp only [poll, handleInbound, hc, Bool.false_eq_true, if_false]
    by_cases hf : (drainRequests s.waiting_to_be_acked pool
        (s.publish_requests_waiting_to_be_sent ++ reqs)).failed
    · simp [hf]
    · simp only [hf, Bool.false_eq_true, if_false]
      intro hok
      have hp : pkts = Packet.pubRec id ::
          (drainRequests s.waiting_to_be_acked pool
            (s.publish_requests_waiting_to_be_sent ++ reqs)).packets ∧
          pub = some ⟨topic, dup, .exactlyOnce, payload⟩ := by
        have := hok
        simp only [Except.ok.injEq, Prod.mk.injEq] at this
        exact ⟨this.1.symm, this.2.symm⟩
      exact ⟨hp.2, by rw [hp.1]; exact List.mem_cons_self _ _, trivial⟩

/-- C3 witness: a first inbound ExactlyOnce PUBLISH on id 5 produces the
publication and a PUBREC and inserts 5; a duplicate (dup=true) produces no
publication but a PUBREC again. -/
theorem c3_witness :
    (some (⟨"m", false, .exactlyOnce, [4]⟩ : ReceivedPublication) =
        some ⟨"m", false, .exactlyOnce, [4]⟩ ∧
      Packet.pubRec 5 ∈ [Packet.pubRec 5] ∧
      ([5] : IdSet) = setInsert 5 []) ∧
    ((none : Option ReceivedPublication) = none ∧
      Packet.pubRec 5 ∈ [Packet.pubRec 5] ∧ ([5] : IdSet) = [5]) := by
  constructor
  · exact (c3_inbound_qos2_dedup ⟨[], [], [], []⟩ initialPool 5 false false "m"
      [4] [] [Packet.pubRec 5] (some ⟨"m", false, .exactlyOnce, [4]⟩) rfl).2 rfl
  · exact (c3_inbound_qos2_dedup ⟨[], [], [5], []⟩ initialPool 5 true false "m"
      [4] [] [Packet.pubRec 5] none rfl).1 rfl

/-- C3 counterexample to the claim as stated: id 1 is already in
`waiting_to_be_released` (inserted by a first inbound PUBLISH), and a
duplicate arrives with dup=false.  The claim says no publication is
produced and PUBREC(1) is emitted again; in fact `poll` panics on the
`assert!(dup)` and emits nothing at all. -/
theorem c3_counterexample :
    (poll
      (poll initialState (some (.publish (.exactlyOnce 1 true) false "n" []))
        [] initialPool).state
      (some (.publish (.exactlyOnce 1 false) false "n" [])) []
      (poll initialState (some (.publish (.exactlyOnce 1 true) false "n" []))
        [] initialPool).pool).outcome = .error .assertFailed ∧
    (poll initialState (some (.publish (.exactlyOnce 1 true) false "n" []))
      [] initialPool).state.waiting_to_be_released = [1] := by
  exact ⟨rfl, rfl⟩

theorem mem_of_lookup {m : IdMap} {id : PacketIdentifier} {e : Entry}
    (h : mapLookup m id = some e) : (id, e) ∈ m := by
  induction m with
  | nil => exact Option.noConfusion h
  | cons kv rest ih =>
    obtain ⟨k, v⟩ := kv
    simp only [mapLookup] at h
    split_ifs at h with hk
    · subst hk
      injection h with h
      subst h
      exact List.mem_cons_self _ _
    · exact List.mem_cons_of_mem _ (ih h)

theorem reserve_spec {p : PacketIdentifiers} {id : PacketIdentifier}
    {p1 : PacketIdentifiers} (h : p.reserve = some (id, p1)) :
    p.in_use id = false ∧
    (∀ x, p1.in_use x = if x = id then true else p.in_use x) := by
  unfold PacketIdentifiers.reserve at h
  cases hf : (reserveCandidates p.cursor).find? (fun i => !p.in_use i) with
  | none => rw [hf] at h; exact Option.noConfusion h
  | some id0 =>
    rw [hf] at h
    have hpred := List.find?_some hf
    injection h with h1
    have hid : id0 = id := congrArg Prod.fst h1
    have hpool : (⟨fun x => if x = id0 then true else p.in_use x, id0 + 1⟩ :
        PacketIdentifiers) = p1 := congrArg Prod.snd h1
    subst hid
    constructor
    · simpa using hpred
    · intro x
      rw [← hpool]

/-! ## C4: the stored-dup invariant -/

theorem storedDupOk_handleInbound (s : State) (pool : PacketIdentifiers)
    (pkt : Option Packet) (h : storedDupOk s) :
    storedDupOk (handleInbound s pool pkt).state := by
  obtain ⟨ha, hc⟩ := h
  rcases pkt with _ | p
  · exact ⟨ha, hc⟩
  cases p with
  | publish pidq retain topic payload =>
    cases pidq with
    | atMostOnce => exact ⟨ha, hc⟩
    | atLeastOnce id dup => exact ⟨ha, hc⟩
    | exactlyOnce id dup =>
      simp only [handleInbound]
      split_ifs <;> exact ⟨ha, hc⟩
  | pubAck id =>
    simp only [handleInbound]
    cases hl : mapLookup s.waiting_to_be_acked id with
    | some e =>
      exact ⟨fun e1 he1 => ha e1 (mem_of_mem_mapRemove he1), hc⟩
    | none => exact ⟨ha, hc⟩
  | pubComp id =>
    simp only [handleInbound]
    cases hl : mapLookup s.waiting_to_be_completed id with
    | some e =>
      exact ⟨ha, fun e1 he1 => hc e1 (mem_of_mem_mapRemove he1)⟩
    | none => exact ⟨ha, hc⟩
  | pubRec id =>
    simp only [handleInbound]
    cases hl : mapLookup s.waiting_to_be_acked id with
    | some e =>
      refine ⟨fun e1 he1 => ha e1 (mem_of_mem_mapRemove he1), ?_⟩
      intro e1 he1
      rcases mem_mapInsert he1 with rfl | he1
      · exact ha (id, e) (mem_of_lookup hl)
      · exact hc e1 he1
    | none => exact ⟨ha, hc⟩
  | pubRel id =>
    simp only [handleInbound]
    split_ifs <;> exact ⟨ha, hc⟩
  | other => exact ⟨ha, hc⟩

theorem storedDupOk_drainRequests (queue : List PublishRequest) (acked : IdMap)
    (pool : PacketIdentifiers)
    (h : ∀ e ∈ acked, packetDupTrue e.2.packet = true) :
    ∀ e ∈ (drainRequests acked pool queue).acked,
      packetDupTrue e.2.packet = true := by
  induction queue generalizing acked pool with
  | nil => exact h
  | cons req rest ih =>
    cases hqos : req.publication.qos with
    | atMostOnce =>
      rw [drainRequests_qos0_cons acked pool req rest hqos]
      exact ih acked pool h
    | atLeastOnce =>
      cases hres : pool.reserve with
      | none =>
        rw [drainRequests_reserve_none acked pool req rest hres (by simp [hqos])]
        exact h
      | some idpool =>
        obtain ⟨id, pool1⟩ := idpool
        have hd : drainRequests acked pool (req :: rest) =
            { drainRequests (mapInsert id ⟨req.ack_sender,
                .publish (.atLeastOnce id true) req.publication.retain
                  req.publication.topic_name req.publication.payload⟩ acked) pool1 rest with
              packets := .publish (.atLeastOnce id false) req.publication.retain
                req.publication.topic_name req.publication.payload ::
                (drainRequests (mapInsert id ⟨req.ack_sender,
                  .publish (.atLeastOnce id true) req.publication.retain
                    req.publication.topic_name req.publication.payload⟩ acked)
                  pool1 rest).packets } := by
          simp [drainRequests, hqos, hres]
        rw [hd]
        refine ih _ pool1 ?_
        intro e1 he1
        rcases mem_mapInsert he1 with rfl | he1
        · rfl
        · exact h e1 he1
    | exactlyOnce =>
      cases hres : pool.reserve with
      | none =>
        rw [drainRequests_reserve_none acked pool req rest hres (by simp [hqos])]
        exact h
      | some idpool =>
        obtain ⟨id, pool1⟩ := idpool
        have hd : drainRequests acked pool (req :: rest) =
            { drainRequests (mapInsert id ⟨req.ack_sender,
                .publish (.exactlyOnce id true) req.publication.retain
                  req.publication.topic_name req.publication.payload⟩ acked) pool1 rest with
              packets := .publish (.exactlyOnce id false) req.publication.retain
                req.publication.topic_name req.publication.payload ::
                (drainRequests (mapInsert id ⟨req.ack_sender,
                  .publish (.exactlyOnce id true) req.publication.retain
                    req.publication.topic_name req.publication.payload⟩ acked)
                  pool1 rest).packets } := by
          simp [drainRequests, hqos, hres]
        rw [hd]
        refine ih _ pool1 ?_
        intro e1 he1
        rcases mem_mapInsert he1 with rfl | he1
        · rfl
        · exact h e1 he1

theorem storedDupOk_poll (s : State) (pool : PacketIdentifiers)
    (pkt : Option Packet) (reqs : List PublishRequest) (h : storedDupOk s) :
    storedDupOk (poll s pkt reqs pool).state := by
  have hir := storedDupOk_handleInbound s pool pkt h
  unfold poll
  by_cases hp : (handleInbound s pool pkt).panicked
  · simp only [hp, if_true]
    exact hir
  · simp only [hp, Bool.false_eq_true, if_false]
    by_cases hf : (drainRequests (handleInbound s pool pkt).state.waiting_to_be_acked
        (handleInbound s pool pkt).pool
        ((handleInbound s pool pkt).state.publish_requests_waiting_to_be_sent ++ reqs)).failed
    · simp only [hf, if_true]
      exact ⟨storedDupOk_drainRequests _ _ _ hir.1, hir.2⟩
    · simp only [hf, Bool.false_eq_true, if_false]
      exact ⟨storedDupOk_drainRequests _ _ _ hir.1, hir.2⟩

theorem storedDupOk_new_connection (s : State) (pool : PacketIdentifiers)
    (reset : Bool) (h : storedDupOk s) :
    storedDupOk (new_connection s reset pool).state := by
  obtain ⟨ha, hc⟩ := h
  cases reset with
  | false => exact ⟨ha, hc⟩
  | true =>
    refine ⟨?_, by intro e he; exact absurd he (List.not_mem_nil e)⟩
    intro e he
    rcases mem_mapAppend he with he | he
    · exact ha e he
    · exact hc e he

theorem storedDupOk_runFrom (tr : List StepInput)
    (sp : State × PacketIdentifiers) (h : storedDupOk sp.1) :
    storedDupOk (runFrom sp tr).1.1 := by
  induction tr generalizing sp with
  | nil => exact h
  | cons i rest ih =>
    cases i with
    | pollStep pkt reqs =>
      exact ih _ (storedDupOk_poll sp.1 sp.2 pkt reqs h)
    | newConnectionStep reset =>
      exact ih _ (storedDupOk_new_connection sp.1 sp.2 reset h)

/-- C4: in every state reachable by poll and new_connection steps from the
empty publish state, every packet stored in `waiting_to_be_acked` and
`waiting_to_be_completed` is a PUBLISH carrying dup=true, and consequently
every packet yielded by a `new_connection` replay is either a PUBREC or a
PUBLISH carrying dup=true. -/
theorem c4_stored_dup (tr : List StepInput) (reset : Bool) :
    (∀ e ∈ (runState tr).1.waiting_to_be_acked,
      packetDupTrue e.2.packet = true) ∧
    (∀ e ∈ (runState tr).1.waiting_to_be_completed,
      packetDupTrue e.2.packet = true) ∧
    (∀ p ∈ (new_connection (runState tr).1 reset (runState tr).2).packets,
      (∃ id, p = Packet.pubRec id) ∨ packetDupTrue p = true) := by
  have hrun : storedDupOk (runState tr).1 :=
    storedDupOk_runFrom tr (initialState, initialPool)
      ⟨by intro e he; exact absurd he (List.not_mem_nil e),
       by intro e he; exact absurd he (List.not_mem_nil e)⟩
  refine ⟨hrun.1, hrun.2, ?_⟩
  have hnc : storedDupOk (new_connection (runState tr).1 reset (runState tr).2).state :=
    storedDupOk_new_connection _ _ reset hrun
  intro p hp
  have hpk : (new_connection (runState tr).1 reset (runState tr).2).packets =
      (new_connection (runState tr).1 reset (runState tr).2).state.waiting_to_be_acked.map
        (fun e => e.2.packet)
      ++ (new_connection (runState tr).1 reset (runState tr).2).state.waiting_to_be_released.map
        (fun id => Packet.pubRec id)
      ++ (new_connection (runState tr).1 reset (runState tr).2).state.waiting_to_be_completed.map
        (fun e => e.2.packet) := by
    cases reset <;> rfl
  rw [hpk] at hp
  rcases List.mem_append.mp hp with hp1 | hp1
  · rcases List.mem_append.mp hp1 with hp2 | hp2
    · obtain ⟨e, he, rfl⟩ := List.mem_map.mp hp2
      exact Or.inr (hnc.1 e he)
    · obtain ⟨id, _, rfl⟩ := List.mem_map.mp hp2
      exact Or.inl ⟨id, rfl⟩
  · obtain ⟨e, he, rfl⟩ := List.mem_map.mp hp1
    exact Or.inr (hnc.2 e he)

/-- C4 witness: after a concrete run that publishes one QoS 1 message, the
stored packet for id 1 indeed carries dup=true. -/
theorem c4_witness :
    packetDupTrue (Packet.publish (.atLeastOnce 1 true) false "t" []) = true :=
  (c4_stored_dup [.pollStep none [⟨⟨"t", .atLeastOnce, false, []⟩, 5⟩]] false).1
    (1, ⟨5, .publish (.atLeastOnce 1 true) false "t" []⟩) (by decide)

/-! ## C1: disjointness of the in-flight identifier sets -/

theorem nodup_of_pairwise {l : List PacketIdentifier}
    (h : List.Pairwise (· < ·) l) : l.Nodup :=
  h.imp ne_of_lt

theorem InvC1_handleInbound (s : State) (pool : PacketIdentifiers)
    (pkt : Option Packet)
    (hpkt : ∀ id dup r t pl, pkt ≠ some (.publish (.exactlyOnce id dup) r t pl))
    (hinv : InvC1 s pool) :
    InvC1 (handleInbound s pool pkt).state (handleInbound s pool pkt).pool := by
  obtain ⟨hrel, hsa, hsc, hia, hic, hdisj⟩ := hinv
  rcases pkt with _ | p
  · exact ⟨hrel, hsa, hsc, hia, hic, hdisj⟩
  cases p with
  | publish pidq retain topic payload =>
    cases pidq with
    | atMostOnce => exact ⟨hrel, hsa, hsc, hia, hic, hdisj⟩
    | atLeastOnce id dup => exact ⟨hrel, hsa, hsc, hia, hic, hdisj⟩
    | exactlyOnce id dup => exact absurd rfl (hpkt id dup retain topic payload)
  | pubAck id =>
    simp only [handleInbound]
    cases hl : mapLookup s.waiting_to_be_acked id with
    | none => exact ⟨hrel, hsa, hsc, hia, hic, hdisj⟩
    | some e =>
      have hidm : id ∈ mapKeys s.waiting_to_be_acked := mem_keys_of_lookup hl
      have hnotr : id ∉ mapKeys (mapRemove s.waiting_to_be_acked id) :=
        not_mem_keys_mapRemove (nodup_of_pairwise hsa)
      refine ⟨hrel, hsa.sublist (keys_mapRemove_sublist _ _), hsc, ?_, ?_, ?_⟩
      · intro x hx
        have hxne : x ≠ id := fun hc => hnotr (hc ▸ hx)
        simp only [PacketIdentifiers.discard, if_neg hxne]
        exact hia x (mem_keys_mapRemove hx)
      · intro x hx
        have hxne : x ≠ id := by
          rintro rfl
          exact hdisj x ⟨hidm, hx⟩
        simp only [PacketIdentifiers.discard, if_neg hxne]
        exact hic x hx
      · intro x ⟨hx1, hx2⟩
        exact hdisj x ⟨mem_keys_mapRemove hx1, hx2⟩
  | pubComp id =>
    simp only [handleInbound]
    cases hl : mapLookup s.waiting_to_be_completed id with
    | none => exact ⟨hrel, hsa, hsc, hia, hic, hdisj⟩
    | some e =>
      have hidm : id ∈ mapKeys s.waiting_to_be_completed := mem_keys_of_lookup hl
      have hnotr : id ∉ mapKeys (mapRemove s.waiting_to_be_completed id) :=
        not_mem_keys_mapRemove (nodup_of_pairwise hsc)
      refine ⟨hrel, hsa, hsc.sublist (keys_mapRemove_sublist _ _), ?_, ?_, ?_⟩
      · intro x hx
        have hxne : x ≠ id := by
          rintro rfl
          exact hdisj x ⟨hx, hidm⟩
        simp only [PacketIdentifiers.discard, if_neg hxne]
        exact hia x hx
      · intro x hx
        have hxne : x ≠ id := fun hc => hnotr (hc ▸ hx)
        simp only [PacketIdentifiers.discard, if_neg hxne]
        exact hic x (mem_keys_mapRemove hx)
      · intro x ⟨hx1, hx2⟩
        exact hdisj x ⟨hx1, mem_keys_mapRemove hx2⟩
  | pubRec id =>
    simp only [handleInbound]
    cases hl : mapLookup s.waiting_to_be_acked id with
    | none => exact ⟨hrel, hsa, hsc, hia, hic, hdisj⟩
    | some e =>
      have hidm : id ∈ mapKeys s.waiting_to_be_acked := mem_keys_of_lookup hl
      have hnotr : id ∉ mapKeys (mapRemove s.waiting_to_be_acked id) :=
        not_mem_keys_mapRemove (nodup_of_pairwise hsa)
      refine ⟨hrel, hsa.sublist (keys_mapRemove_sublist _ _),
        pairwise_keys_mapInsert hsc, ?_, ?_, ?_⟩
      · intro x hx
        exact hia x (mem_keys_mapRemove hx)
      · intro x hx
        rcases (mem_keys_mapInsert x).mp hx with rfl | hx
        · exact hia x hidm
        · exact hic x hx
      · intro x ⟨hx1, hx2⟩
        rcases (mem_keys_mapInsert x).mp hx2 with rfl | hx2
        · exact hnotr hx1
        · exact hdisj x ⟨mem_keys_mapRemove hx1, hx2⟩
  | pubRel id =>
    simp only [handleInbound, hrel, setContains, Bool.false_eq_true, if_false]
    exact ⟨hrel, hsa, hsc, hia, hic, hdisj⟩
  | other => exact ⟨hrel, hsa, hsc, hia, hic, hdisj⟩

theorem InvC1_drainRequests (queue : List PublishRequest) (acked completed : IdMap)
    (pool : PacketIdentifiers)
    (hsa : List.Pairwise (· < ·) (mapKeys acked))
    (hia : ∀ id ∈ mapKeys acked, pool.in_use id = true)
    (hic : ∀ id ∈ mapKeys completed, pool.in_use id = true)
    (hdisj : ∀ id, ¬(id ∈ mapKeys acked ∧ id ∈ mapKeys completed)) :
    List.Pairwise (· < ·) (mapKeys (drainRequests acked pool queue).acked) ∧
    (∀ id ∈ mapKeys (drainRequests acked pool queue).acked,
      (drainRequests acked pool queue).pool.in_use id = true) ∧
    (∀ id ∈ mapKeys completed,
      (drainRequests acked pool queue).pool.in_use id = true) ∧
    (∀ id, ¬(id ∈ mapKeys (drainRequests acked pool queue).acked ∧
      id ∈ mapKeys completed)) := by
  induction queue generalizing acked pool with
  | nil => exact ⟨hsa, hia, hic, hdisj⟩
  | cons req rest ih =>
    cases hqos : req.publication.qos with
    | atMostOnce =>
      rw [drainRequests_qos0_cons acked pool req rest hqos]
      exact ih acked pool hsa hia hic hdisj
    | atLeastOnce =>
      cases hres : pool.reserve with
      | none =>
        rw [drainRequests_reserve_none acked pool req rest hres (by simp [hqos])]
        exact ⟨hsa, hia, hic, hdisj⟩
      | some idpool =>
        obtain ⟨id, pool1⟩ := idpool
        obtain ⟨hfree, hupd⟩ := reserve_spec hres
        have hd : drainRequests acked pool (req :: rest) =
            { drainRequests (mapInsert id ⟨req.ack_sender,
                .publish (.atLeastOnce id true) req.publication.retain
                  req.publication.topic_name req.publication.payload⟩ acked) pool1 rest with
              packets := .publish (.atLeastOnce id false) req.publication.retain
                req.publication.topic_name req.publication.payload ::
                (drainRequests (mapInsert id ⟨req.ack_sender,
                  .publish (.atLeastOnce id true) req.publication.retain
                    req.publication.topic_name req.publication.payload⟩ acked)
                  pool1 rest).packets } := by
          simp [drainRequests, hqos, hres]
        rw [hd]
        have hid_acked : id ∉ mapKeys acked := by
          intro hc
          rw [hia id hc] at hfree
          exact Bool.noConfusion hfree
        have hid_comp : id ∉ mapKeys completed := by
          intro hc
          rw [hic id hc] at hfree
          exact Bool.noConfusion hfree
        refine ih _ pool1 (pairwise_keys_mapInsert hsa) ?_ ?_ ?_
        · intro x hx
          rcases (mem_keys_mapInsert x).mp hx with rfl | hx
          · rw [hupd x]
            simp
          · rw [hupd x]
            by_cases hxid : x = id
            · simp [hxid]
            · simp only [if_neg hxid]
              exact hia x hx
        · intro x hx
          rw [hupd x]
          have hxid : x ≠ id := fun hc => hid_comp (hc ▸ hx)
          simp only [if_neg hxid]
          exact hic x hx
        · intro x ⟨hx1, hx2⟩
          rcases (mem_keys_mapInsert x).mp hx1 with rfl | hx1
          · exact hid_comp hx2
          · exact hdisj x ⟨hx1, hx2⟩
    | exactlyOnce =>
      cases hres : pool.reserve with
      | none =>
        rw [drainRequests_reserve_none acked pool req rest hres (by simp [hqos])]
        exact ⟨hsa, hia, hic, hdisj⟩
      | some idpool =>
        obtain ⟨id, pool1⟩ := idpool
        obtain ⟨hfree, hupd⟩ := reserve_spec hres
        have hd : drainRequests acked pool (req :: rest) =
            { drainRequests (mapInsert id ⟨req.ack_sender,
                .publish (.exactlyOnce id true) req.publication.retain
                  req.publication.topic_name req.publication.payload⟩ acked) pool1 rest with
              packets := .publish (.exactlyOnce id false) req.publication.retain
                req.publication.topic_name req.publication.payload ::
                (drainRequests (mapInsert id ⟨req.ack_sender,
                  .publish (.exactlyOnce id true) req.publication.retain
                    req.publication.topic_name req.publication.payload⟩ acked)
                  pool1 rest).packets } := by
          simp [drainRequests, hqos, hres]
        rw [hd]
        have hid_acked : id ∉ mapKeys acked := by
          intro hc
          rw [hia id hc] at hfree
          exact Bool.noConfusion hfree
        have hid_comp : id ∉ mapKeys completed := by
          intro hc
          rw [hic id hc] at hfree
          exact Bool.noConfusion hfree
        refine ih _ pool1 (pairwise_keys_mapInsert hsa) ?_ ?_ ?_
        · intro x hx
          rcases (mem_keys_mapInsert x).mp hx with rfl | hx
          · rw [hupd x]
            simp
          · rw [hupd x]
            by_cases hxid : x = id
            · simp [hxid]
            · simp only [if_neg hxid]
              exact hia x hx
        · intro x hx
          rw [hupd x]
          have hxid : x ≠ id := fun hc => hid_comp (hc ▸ hx)
          simp only [if_neg hxid]
          exact hic x hx
        · intro x ⟨hx1, hx2⟩
          rcases (mem_keys_mapInsert x).mp hx1 with rfl | hx1
          · exact hid_comp hx2
          · exact hdisj x ⟨hx1, hx2⟩

theorem InvC1_poll (s : State) (pool : PacketIdentifiers) (pkt : Option Packet)
    (reqs : List PublishRequest)
    (hpkt : ∀ id dup r t pl, pkt ≠ some (.publish (.exactlyOnce id dup) r t pl))
    (hinv : InvC1 s pool) :
    InvC1 (poll s pkt reqs pool).state (poll s pkt reqs pool).pool := by
  have hir := InvC1_handleInbound s pool pkt hpkt hinv
  obtain ⟨hrel, hsa, hsc, hia, hic, hdisj⟩ := hir
  have hdr := InvC1_drainRequests
    ((handleInbound s pool pkt).state.publish_requests_waiting_to_be_sent ++ reqs)
    (handleInbound s pool pkt).state.waiting_to_be_acked
    (handleInbound s pool pkt).state.waiting_to_be_completed
    (handleInbound s pool pkt).pool hsa hia hic hdisj
  unfold poll
  by_cases hp : (handleInbound s pool pkt).panicked
  · simp only [hp, if_true]
    exact ⟨hrel, hsa, hsc, hia, hic, hdisj⟩
  · simp only [hp, Bool.false_eq_true, if_false]
    by_cases hf : (drainRequests (handleInbound s pool pkt).state.waiting_to_be_acked
        (handleInbound s pool pkt).pool
        ((handleInbound s pool pkt).state.publish_requests_waiting_to_be_sent ++ reqs)).failed
    · simp only [hf, if_true]
      exact ⟨hrel, hdr.1, hsc, hdr.2.1, hdr.2.2.1, hdr.2.2.2⟩
    · simp only [hf, Bool.false_eq_true, if_false]
      exact ⟨hrel, hdr.1, hsc, hdr.2.1, hdr.2.2.1, hdr.2.2.2⟩

theorem InvC1_new_connection (s : State) (pool : PacketIdentifiers)
    (reset : Bool) (hinv : InvC1 s pool) :
    InvC1 (new_connection s reset pool).state (new_connection s reset pool).pool := by
  obtain ⟨hrel, hsa, hsc, hia, hic, hdisj⟩ := hinv
  cases reset with
  | false => exact ⟨hrel, hsa, hsc, hia, hic, hdisj⟩
  | true =>
    have hpool : (new_connection s true pool).pool = pool := by
      simp [new_connection, hrel]
    refine ⟨rfl, pairwise_keys_mapAppend hsa, by simp [new_connection, mapKeys],
      ?_, ?_, ?_⟩
    · intro x hx
      rw [hpool]
      rcases (mem_keys_mapAppend x).mp hx with hx | hx
      · exact hia x hx
      · exact hic x hx
    · intro x hx
      exact absurd hx (by simp [new_connection, mapKeys])
    · intro x ⟨_, hx2⟩
      exact absurd hx2 (by simp [new_connection, mapKeys])

theorem InvC1_runFrom (tr : List StepInput) (sp : State × PacketIdentifiers)
    (h : ∀ i ∈ tr, noInboundExactlyOnce i = true) (hinv : InvC1 sp.1 sp.2) :
    InvC1 (runFrom sp tr).1.1 (runFrom sp tr).1.2 := by
  induction tr generalizing sp with
  | nil => exact hinv
  | cons i rest ih =>
    have hi := h i (List.mem_cons_self _ _)
    have hrest : ∀ j ∈ rest, noInboundExactlyOnce j = true :=
      fun j hj => h j (List.mem_cons_of_mem _ hj)
    cases i with
    | pollStep pkt reqs =>
      refine ih _ hrest ?_
      refine InvC1_poll sp.1 sp.2 pkt reqs ?_ hinv
      intro id dup r t pl hc
      subst hc
      simp [noInboundExactlyOnce] at hi
    | newConnectionStep reset =>
      exact ih _ hrest (InvC1_new_connection sp.1 sp.2 reset hinv)

/-- C1 (amended): after any sequence of poll and new_connection steps in
which no consumed inbound PUBLISH carries an ExactlyOnce tag, every
PacketIdentifier appears in at most one of `waiting_to_be_acked`,
`waiting_to_be_released` and `waiting_to_be_completed` (indeed
`waiting_to_be_released` stays empty).  The restriction is forced:
`waiting_to_be_released` holds server-chosen identifiers that are never
reserved in the client pool, so an inbound ExactlyOnce PUBLISH id can
collide with an id the client later reserves; see the counterexample. -/
theorem c1_disjoint_in_flight (tr : List StepInput)
    (h : ∀ i ∈ tr, noInboundExactlyOnce i = true) :
    (∀ id, ¬(id ∈ mapKeys (runState tr).1.waiting_to_be_acked ∧
      id ∈ mapKeys (runState tr).1.waiting_to_be_completed)) ∧
    (∀ id, ¬(id ∈ mapKeys (runState tr).1.waiting_to_be_acked ∧
      id ∈ (runState tr).1.waiting_to_be_released)) ∧
    (∀ id, ¬(id ∈ mapKeys (runState tr).1.waiting_to_be_completed ∧
      id ∈ (runState tr).1.waiting_to_be_released)) := by
  have hinv : InvC1 (runState tr).1 (runState tr).2 :=
    InvC1_runFrom tr (initialState, initialPool) h
      ⟨rfl, List.Pairwise.nil, List.Pairwise.nil,
       by intro id hid; exact absurd hid (List.not_mem_nil id),
       by intro id hid; exact absurd hid (List.not_mem_nil id),
       by intro id ⟨hid, _⟩; exact absurd hid (List.not_mem_nil id)⟩
  refine ⟨hinv.2.2.2.2.2, ?_, ?_⟩
  · intro id ⟨_, hid2⟩
    rw [hinv.1] at hid2
    exact absurd hid2 (List.not_mem_nil id)
  · intro id ⟨_, hid2⟩
    rw [hinv.1] at hid2
    exact absurd hid2 (List.not_mem_nil id)

/-- C1 witness: after a concrete run that publishes at QoS 1 (id 1), gets
PUBREC(1) moving it to `waiting_to_be_completed`, and publishes another
QoS 1 message (id 2), identifier 1 is only in `waiting_to_be_completed`
and 2 only in `waiting_to_be_acked`. -/
theorem c1_witness :
    ¬(1 ∈ mapKeys (runState [.pollStep none [⟨⟨"t", .atLeastOnce, false, []⟩, 0⟩],
        .pollStep (some (.pubRec 1)) [⟨⟨"t", .atLeastOnce, false, []⟩, 1⟩]]).1.waiting_to_be_acked ∧
      1 ∈ mapKeys (runState [.pollStep none [⟨⟨"t", .atLeastOnce, false, []⟩, 0⟩],
        .pollStep (some (.pubRec 1)) [⟨⟨"t", .atLeastOnce, false, []⟩, 1⟩]]).1.waiting_to_be_completed) :=
  (c1_disjoint_in_flight
    [.pollStep none [⟨⟨"t", .atLeastOnce, false, []⟩, 0⟩],
     .pollStep (some (.pubRec 1)) [⟨⟨"t", .atLeastOnce, false, []⟩, 1⟩]]
    (by decide)).1 1

/-- C1 counterexample to the claim as stated: an inbound ExactlyOnce
PUBLISH with server-chosen id 1 puts 1 into `waiting_to_be_released`; the
pool does not know about it, so the next QoS 1 publish request reserves
id 1 as well and puts it into `waiting_to_be_acked`.  Identifier 1 is then
in two of the three sets at once. -/
theorem c1_counterexample :
    1 ∈ mapKeys (runState [.pollStep (some (.publish (.exactlyOnce 1 false) false "s" [])) [],
      .pollStep none [⟨⟨"s", .atLeastOnce, false, []⟩, 0⟩]]).1.waiting_to_be_acked ∧
    1 ∈ (runState [.pollStep (some (.publish (.exactlyOnce 1 false) false "s" [])) [],
      .pollStep none [⟨⟨"s", .atLeastOnce, false, []⟩, 0⟩]]).1.waiting_to_be_released := by
  decide

/-! ## C5: completion notifiers -/

theorem drainRequests_qos1_cons (acked : IdMap) (pool : PacketIdentifiers)
    (req : PublishRequest) (rest : List PublishRequest)
    (id : PacketIdentifier) (pool1 : PacketIdentifiers)
    (hqos : req.publication.qos = .atLeastOnce)
    (hres : pool.reserve = some (id, pool1)) :
    drainRequests acked pool (req :: rest) =
      { drainRequests (mapInsert id ⟨req.ack_sender,
          .publish (.atLeastOnce id true) req.publication.retain
            req.publication.topic_name req.publication.payload⟩ acked) pool1 rest with
        packets := .publish (.atLeastOnce id false) req.publication.retain
          req.publication.topic_name req.publication.payload ::
          (drainRequests (mapInsert id ⟨req.ack_sender,
            .publish (.atLeastOnce id true) req.publication.retain
              req.publication.topic_name req.publication.payload⟩ acked)
            pool1 rest).packets } := by
  simp [drainRequests, hqos, hres]

theorem drainRequests_qos2_cons (acked : IdMap) (pool : PacketIdentifiers)
    (req : PublishRequest) (rest : List PublishRequest)
    (id : PacketIdentifier) (pool1 : PacketIdentifiers)
    (hqos : req.publication.qos = .exactlyOnce)
    (hres : pool.reserve = some (id, pool1)) :
    drainRequests acked pool (req :: rest) =
      { drainRequests (mapInsert id ⟨req.ack_sender,
          .publish (.exactlyOnce id true) req.publication.retain
            req.publication.topic_name req.publication.payload⟩ acked) pool1 rest with
        packets := .publish (.exactlyOnce id false) req.publication.retain
          req.publication.topic_name req.publication.payload ::
          (drainRequests (mapInsert id ⟨req.ack_sender,
            .publish (.exactlyOnce id true) req.publication.retain
              req.publication.topic_name req.publication.payload⟩ acked)
            pool1 rest).packets } := by
  simp [drainRequests, hqos, hres]

theorem count_mapTokens_mapInsert (m : IdMap) (id : PacketIdentifier)
    (e : Entry) (t : Nat) :
    List.count t (mapTokens (mapInsert id e m)) ≤
    List.count t (e.ack_sender :: mapTokens m) := by
  induction m with
  | nil => simp [mapInsert, mapTokens]
  | cons kv rest ih =>
    obtain ⟨k, v⟩ := kv
    rcases Nat.lt_trichotomy id k with hlt | heq | hgt
    · rw [show mapInsert id e ((k, v) :: rest) = (id, e) :: (k, v) :: rest from by
        simp [mapInsert, hlt]]
      simp [mapTokens, List.count_cons]
    · subst heq
      rw [show mapInsert id e ((id, v) :: rest) = (id, e) :: rest from by
        simp [mapInsert, lt_irrefl]]
      simp only [mapTokens, List.map_cons, List.count_cons] at ih ⊢
      split_ifs <;> omega
    · rw [show mapInsert id e ((k, v) :: rest) = (k, v) :: mapInsert id e rest from by
        simp [mapInsert, Nat.lt_asymm hgt, ne_of_gt hgt]]
      simp only [mapTokens, List.map_cons, List.count_cons] at ih ⊢
      split_ifs at ih ⊢ <;> omega

theorem mapTokens_perm_of_lookup {m : IdMap} {id : PacketIdentifier} {e : Entry}
    (h : mapLookup m id = some e) :
    List.Perm (mapTokens m) (e.ack_sender :: mapTokens (mapRemove m id)) := by
  induction m with
  | nil => exact Option.noConfusion h
  | cons kv rest ih =>
    obtain ⟨k, v⟩ := kv
    simp only [mapLookup] at h
    split_ifs at h with hk
    · injection h with h
      subst h
      rw [show mapRemove ((k, v) :: rest) id = rest from by simp [mapRemove, hk]]
      exact List.Perm.refl _
    · rw [show mapRemove ((k, v) :: rest) id = (k, v) :: mapRemove rest id from by
        simp [mapRemove, hk]]
      refine List.Perm.trans ((ih h).cons v.ack_sender) ?_
      exact List.Perm.swap e.ack_sender v.ack_sender
        (mapTokens (mapRemove rest id))

theorem count_mapTokens_mapAppend (a c : IdMap) (t : Nat) :
    List.count t (mapTokens (mapAppend a c)) ≤
    List.count t (mapTokens a) + List.count t (mapTokens c) := by
  induction c generalizing a with
  | nil => simp [mapAppend]
  | cons kv rest ih =>
    obtain ⟨k, v⟩ := kv
    simp only [mapAppend]
    have h1 := ih (mapInsert k v a)
    have h2 := count_mapTokens_mapInsert a k v t
    simp only [mapTokens, List.map_cons, List.count_cons] at h1 h2 ⊢
    split_ifs at h2 ⊢ <;> omega

theorem handleInbound_tokens (s : State) (pool : PacketIdentifiers)
    (pkt : Option Packet) (t : Nat) :
    List.count t (stateTokens (handleInbound s pool pkt).state) +
    List.count t (handleInbound s pool pkt).signalled ≤
    List.count t (stateTokens s) := by
  rcases pkt with _ | p
  · simp [handleInbound]
  cases p with
  | publish pidq retain topic payload =>
    cases pidq with
    | atMostOnce => simp [handleInbound]
    | atLeastOnce id dup => simp [handleInbound]
    | exactlyOnce id dup =>
      simp only [handleInbound]
      split_ifs <;> simp [stateTokens]
  | pubAck id =>
    simp only [handleInbound]
    cases hl : mapLookup s.waiting_to_be_acked id with
    | none => simp
    | some e =>
      have hperm := (mapTokens_perm_of_lookup hl).count_eq t
      simp only [stateTokens, List.count_append, List.count_cons] at hperm ⊢
      simp only [List.count_nil, List.count_cons] at hperm ⊢
      split_ifs at hperm ⊢ <;> omega
  | pubComp id =>
    simp only [handleInbound]
    cases hl : mapLookup s.waiting_to_be_completed id with
    | none => simp
    | some e =>
      have hperm := (mapTokens_perm_of_lookup hl).count_eq t
      simp only [stateTokens, List.count_append, List.count_cons] at hperm ⊢
      simp only [List.count_nil, List.count_cons] at hperm ⊢
      split_ifs at hperm ⊢ <;> omega
  | pubRec id =>
    simp only [handleInbound]
    cases hl : mapLookup s.waiting_to_be_acked id with
    | none => simp
    | some e =>
      have hperm := (mapTokens_perm_of_lookup hl).count_eq t
      have hins := count_mapTokens_mapInsert s.waiting_to_be_completed id e t
      simp only [stateTokens, List.count_append, List.count_cons] at hperm hins ⊢
      simp only [List.count_nil] at hperm hins ⊢
      split_ifs at hperm hins ⊢ <;> omega
  | pubRel id =>
    simp only [handleInbound]
    split_ifs <;> simp [stateTokens]
  | other => simp [handleInbound]

theorem drainRequests_tokens (queue : List PublishRequest) (acked : IdMap)
    (pool : PacketIdentifiers) (t : Nat) :
    List.count t (requestTokens (drainRequests acked pool queue).queue) +
    List.count t (mapTokens (drainRequests acked pool queue).acked) +
    List.count t (drainRequests acked pool queue).signalled ≤
    List.count t (requestTokens queue) + List.count t (mapTokens acked) := by
  induction queue generalizing acked pool with
  | nil => simp [drainRequests, requestTokens]
  | cons req rest ih =>
    cases hqos : req.publication.qos with
    | atMostOnce =>
      rw [drainRequests_qos0_cons acked pool req rest hqos]
      have h1 := ih acked pool
      simp only [requestTokens, List.map_cons, List.count_cons,
        List.count_append] at h1 ⊢
      split_ifs at h1 ⊢ <;> omega
    | atLeastOnce =>
      cases hres : pool.reserve with
      | none =>
        rw [drainRequests_reserve_none acked pool req rest hres (by simp [hqos])]
        simp
      | some idpool =>
        obtain ⟨id, pool1⟩ := idpool
        rw [drainRequests_qos1_cons acked pool req rest id pool1 hqos hres]
        have h1 := ih (mapInsert id ⟨req.ack_sender,
          .publish (.atLeastOnce id true) req.publication.retain
            req.publication.topic_name req.publication.payload⟩ acked) pool1
        have h2 := count_mapTokens_mapInsert acked id ⟨req.ack_sender,
          .publish (.atLeastOnce id true) req.publication.retain
            req.publication.topic_name req.publication.payload⟩ t
        simp only [requestTokens, List.map_cons, List.count_cons] at h1 h2 ⊢
        split_ifs at h1 h2 ⊢ <;> omega
    | exactlyOnce =>
      cases hres : pool.reserve with
      | none =>
        rw [drainRequests_reserve_none acked pool req rest hres (by simp [hqos])]
        simp
      | some idpool =>
        obtain ⟨id, pool1⟩ := idpool
        rw [drainRequests_qos2_cons acked pool req rest id pool1 hqos hres]
        have h1 := ih (mapInsert id ⟨req.ack_sender,
          .publish (.exactlyOnce id true) req.publication.retain
            req.publication.topic_name req.publication.payload⟩ acked) pool1
        have h2 := count_mapTokens_mapInsert acked id ⟨req.ack_sender,
          .publish (.exactlyOnce id true) req.publication.retain
            req.publication.topic_name req.publication.payload⟩ t
        simp only [requestTokens, List.map_cons, List.count_cons] at h1 h2 ⊢
        split_ifs at h1 h2 ⊢ <;> omega

theorem poll_tokens (s : State) (pool : PacketIdentifiers) (pkt : Option Packet)
    (reqs : List PublishRequest) (t : Nat) :
    List.count t (stateTokens (poll s pkt reqs pool).state) +
    List.count t (poll s pkt reqs pool).signalled ≤
    List.count t (stateTokens s) + List.count t (requestTokens reqs) := by
  have hA := handleInbound_tokens s pool pkt t
  unfold poll
  by_cases hp : (handleInbound s pool pkt).panicked
  · simp only [hp, if_true]
    omega
  · simp only [hp, Bool.false_eq_true, if_false]
    have hB := drainRequests_tokens
      ((handleInbound s pool pkt).state.publish_requests_waiting_to_be_sent ++ reqs)
      (handleInbound s pool pkt).state.waiting_to_be_acked
      (handleInbound s pool pkt).pool t
    simp only [stateTokens, List.count_append, requestTokens, List.map_append]
      at hA hB ⊢
    by_cases hf : (drainRequests (handleInbound s pool pkt).state.waiting_to_be_acked
        (handleInbound s pool pkt).pool
        ((handleInbound s pool pkt).state.publish_requests_waiting_to_be_sent ++ reqs)).failed
    · simp only [hf, if_true]
      simp only [List.count_append, requestTokens]
      omega
    · simp only [hf, Bool.false_eq_true, if_false]
      simp only [List.count_append, requestTokens]
      omega

theorem new_connection_tokens (s : State) (pool : PacketIdentifiers)
    (reset : Bool) (t : Nat) :
    List.count t (stateTokens (new_connection s reset pool).state) ≤
    List.count t (stateTokens s) := by
  cases reset with
  | false => exact le_refl _
  | true =>
    have h1 := count_mapTokens_mapAppend s.waiting_to_be_acked
      s.waiting_to_be_completed t
    have hstate : (new_connection s true pool).state =
        { s with
          waiting_to_be_acked := mapAppend s.waiting_to_be_acked s.waiting_to_be_completed,
          waiting_to_be_completed := [],
          waiting_to_be_released := [] } := by
      simp [new_connection]
    rw [hstate]
    simp only [stateTokens, List.count_append, mapTokens, List.map_nil,
      List.count_nil]
    simp only [mapTokens] at h1
    omega

theorem runFrom_tokens (tr : List StepInput) (sp : State × PacketIdentifiers)
    (t : Nat) :
    List.count t (stateTokens (runFrom sp tr).1.1) +
    List.count t (runFrom sp tr).2 ≤
    List.count t (stateTokens sp.1) + List.count t (traceTokens tr) := by
  induction tr generalizing sp with
  | nil => simp [runFrom, traceTokens]
  | cons i rest ih =>
    simp only [runFrom, traceTokens, List.count_append]
    cases i with
    | pollStep pkt reqs =>
      have h1 := poll_tokens sp.1 sp.2 pkt reqs t
      have h2 := ih ((poll sp.1 pkt reqs sp.2).state, (poll sp.1 pkt reqs sp.2).pool)
      simp only [step, stepTokens] at h2 ⊢
      omega
    | newConnectionStep reset =>
      have h1 := new_connection_tokens sp.1 sp.2 reset t
      have h2 := ih ((new_connection sp.1 reset sp.2).state,
        (new_connection sp.1 reset sp.2).pool)
      simp only [step, stepTokens] at h2 ⊢
      simp only [List.count_nil]
      omega

theorem drainRequests_signalled_origin (queue : List PublishRequest)
    (acked : IdMap) (pool : PacketIdentifiers) (t : Nat)
    (h : t ∈ (drainRequests acked pool queue).signalled) :
    ∃ req, req ∈ queue ∧ req.ack_sender = t ∧
      req.publication.qos = .atMostOnce := by
  induction queue generalizing acked pool with
  | nil => exact absurd h (by simp [drainRequests])
  | cons req rest ih =>
    cases hqos : req.publication.qos with
    | atMostOnce =>
      rw [drainRequests_qos0_cons acked pool req rest hqos] at h
      simp only [List.mem_cons] at h
      rcases h with rfl | h
      · exact ⟨req, List.mem_cons_self _ _, rfl, hqos⟩
      · obtain ⟨req1, hm, ht, hq⟩ := ih acked pool h
        exact ⟨req1, List.mem_cons_of_mem _ hm, ht, hq⟩
    | atLeastOnce =>
      cases hres : pool.reserve with
      | none =>
        rw [drainRequests_reserve_none acked pool req rest hres (by simp [hqos])] at h
        exact absurd h (by simp)
      | some idpool =>
        obtain ⟨id, pool1⟩ := idpool
        rw [drainRequests_qos1_cons acked pool req rest id pool1 hqos hres] at h
        obtain ⟨req1, hm, ht, hq⟩ := ih _ pool1 h
        exact ⟨req1, List.mem_cons_of_mem _ hm, ht, hq⟩
    | exactlyOnce =>
      cases hres : pool.reserve with
      | none =>
        rw [drainRequests_reserve_none acked pool req rest hres (by simp [hqos])] at h
        exact absurd h (by simp)
      | some idpool =>
        obtain ⟨id, pool1⟩ := idpool
        rw [drainRequests_qos2_cons acked pool req rest id pool1 hqos hres] at h
        obtain ⟨req1, hm, ht, hq⟩ := ih _ pool1 h
        exact ⟨req1, List.mem_cons_of_mem _ hm, ht, hq⟩

theorem handleInbound_signalled_origin (s : State) (pool : PacketIdentifiers)
    (pkt : Option Packet) (t : Nat)
    (h : t ∈ (handleInbound s pool pkt).signalled) :
    (∃ id e, pkt = some (.pubAck id) ∧
      mapLookup s.waiting_to_be_acked id = some e ∧ e.ack_sender = t) ∨
    (∃ id e, pkt = some (.pubComp id) ∧
      mapLookup s.waiting_to_be_completed id = some e ∧ e.ack_sender = t) := by
  rcases pkt with _ | p
  · exact absurd h (by simp [handleInbound])
  cases p with
  | publish pidq retain topic payload =>
    exfalso
    cases pidq with
    | atMostOnce => exact absurd h (by simp [handleInbound])
    | atLeastOnce id dup => exact absurd h (by simp [handleInbound])
    | exactlyOnce id dup =>
      revert h
      simp only [handleInbound]
      split_ifs <;> simp
  | pubAck id =>
    simp only [handleInbound] at h
    cases hl : mapLookup s.waiting_to_be_acked id with
    | none => rw [hl] at h; exact absurd h (by simp)
    | some e =>
      rw [hl] at h
      simp only [List.mem_singleton] at h
      exact Or.inl ⟨id, e, rfl, hl, h.symm⟩
  | pubComp id =>
    simp only [handleInbound] at h
    cases hl : mapLookup s.waiting_to_be_completed id with
    | none => rw [hl] at h; exact absurd h (by simp)
    | some e =>
      rw [hl] at h
      simp only [List.mem_singleton] at h
      exact Or.inr ⟨id, e, rfl, hl, h.symm⟩
  | pubRec id =>
    exfalso
    revert h
    simp only [handleInbound]
    cases mapLookup s.waiting_to_be_acked id <;> simp
  | pubRel id =>
    exfalso
    revert h
    simp only [handleInbound]
    split_ifs <;> simp
  | other => exact absurd h (by simp [handleInbound])

theorem poll_signalled_origin (s : State) (pool : PacketIdentifiers)
    (pkt : Option Packet) (reqs : List PublishRequest) (t : Nat)
    (h : t ∈ (poll s pkt reqs pool).signalled) :
    (∃ req, (req ∈ s.publish_requests_waiting_to_be_sent ∨ req ∈ reqs) ∧
      req.ack_sender = t ∧ req.publication.qos = .atMostOnce) ∨
    (∃ id e, pkt = some (.pubAck id) ∧
      mapLookup s.waiting_to_be_acked id = some e ∧ e.ack_sender = t) ∨
    (∃ id e, pkt = some (.pubComp id) ∧
      mapLookup s.waiting_to_be_completed id = some e ∧ e.ack_sender = t) := by
  have hsplit : t ∈ (handleInbound s pool pkt).signalled ∨
      t ∈ (drainRequests (handleInbound s pool pkt).state.waiting_to_be_acked
        (handleInbound s pool pkt).pool
        ((handleInbound s pool pkt).state.publish_requests_waiting_to_be_sent ++ reqs)).signalled := by
    revert h
    unfold poll
    by_cases hp : (handleInbound s pool pkt).panicked
    · simp only [hp, if_true]
      intro h
      exact Or.inl h
    · simp only [hp, Bool.false_eq_true, if_false]
      by_cases hf : (drainRequests (handleInbound s pool pkt).state.waiting_to_be_acked
          (handleInbound s pool pkt).pool
          ((handleInbound s pool pkt).state.publish_requests_waiting_to_be_sent ++ reqs)).failed
      · simp only [hf, if_true]
        intro h
        exact List.mem_append.mp h
      · simp only [hf, Bool.false_eq_true, if_false]
        intro h
        exact List.mem_append.mp h
  rcases hsplit with h1 | h1
  · rcases handleInbound_signalled_origin s pool pkt t h1 with h2 | h2
    · exact Or.inr (Or.inl h2)
    · exact Or.inr (Or.inr h2)
  · obtain ⟨req, hm, ht, hq⟩ := drainRequests_signalled_origin _ _ _ t h1
    rw [handleInbound_queue] at hm
    exact Or.inl ⟨req, List.mem_append.mp hm, ht, hq⟩

/-- C5 (amended): in any run from the empty publish state in which the
submitted requests carry pairwise-distinct notifier tokens, every
completion notifier is signalled at most once; a `poll` step signals a
token only when it dequeues that token's QoS 0 request, or when it handles
a PUBACK whose identifier currently maps to that token in
`waiting_to_be_acked`, or when it handles a PUBCOMP whose identifier
currently maps to that token in `waiting_to_be_completed`; and
`new_connection` steps signal nothing.  (The original claim is refuted by
the counterexample: a QoS 1 request's notifier is signalled by PUBCOMP,
not PUBACK, when the server answers its PUBLISH with PUBREC; and a
notifier whose final ack never arrives — or whose map entry is
overwritten — is signalled zero times, so only "at most once" holds
unconditionally.) -/
theorem c5_signal_at_most_once (tr : List StepInput)
    (hnd : (traceTokens tr).Nodup) :
    (∀ t, List.count t (runSignals tr) ≤ 1) ∧
    (∀ s pool pkt reqs t, t ∈ (poll s pkt reqs pool).signalled →
      (∃ req, (req ∈ s.publish_requests_waiting_to_be_sent ∨ req ∈ reqs) ∧
        req.ack_sender = t ∧ req.publication.qos = .atMostOnce) ∨
      (∃ id e, pkt = some (.pubAck id) ∧
        mapLookup s.waiting_to_be_acked id = some e ∧ e.ack_sender = t) ∨
      (∃ id e, pkt = some (.pubComp id) ∧
        mapLookup s.waiting_to_be_completed id = some e ∧ e.ack_sender = t)) ∧
    (∀ s pool reset,
      (step (s, pool) (.newConnectionStep reset)).2 = ([] : List Nat)) := by
  refine ⟨?_, poll_signalled_origin, fun s pool reset => rfl⟩
  intro t
  have hrun := runFrom_tokens tr (initialState, initialPool) t
  have hzero : List.count t (stateTokens (initialState, initialPool).1) = 0 := rfl
  have hbound : List.count t (traceTokens tr) ≤ 1 :=
    List.nodup_iff_count_le_one.mp hnd t
  simp only [runSignals]
  omega

/-- C5 witness: on the concrete run that submits one QoS 1 request (token
0) and receives its PUBACK, token 0 is signalled at most once. -/
theorem c5_witness :
    List.count 0 (runSignals [.pollStep none [⟨⟨"t", .atLeastOnce, false, []⟩, 0⟩],
      .pollStep (some (.pubAck 1)) []]) ≤ 1 :=
  (c5_signal_at_most_once
    [.pollStep none [⟨⟨"t", .atLeastOnce, false, []⟩, 0⟩],
     .pollStep (some (.pubAck 1)) []] (by decide)).1 0

/-- C5 counterexample to the claim as stated: the claim says a QoS 1
request's notifier is signalled only by the handling of a PUBACK for its
identifier.  On this concrete run a QoS 1 request (token 0, reserved id 1)
is answered by the server with PUBREC(1) — which moves its entry to
`waiting_to_be_completed` — and then PUBCOMP(1): after the first two steps
nothing has been signalled, and the third step, a PUBCOMP and not a
PUBACK, signals token 0. -/
theorem c5_counterexample :
    runSignals [.pollStep none [⟨⟨"t", .atLeastOnce, false, []⟩, 0⟩],
      .pollStep (some (.pubRec 1)) []] = [] ∧
    runSignals [.pollStep none [⟨⟨"t", .atLeastOnce, false, []⟩, 0⟩],
      .pollStep (some (.pubRec 1)) [],
      .pollStep (some (.pubComp 1)) []] = [0] := by
  exact ⟨rfl, rfl⟩

end Mqtt
